import Mathlib

/-!
Verification of the Prolog syntax checker in `src/main.py`: a shallow
embedding of its `Lexer` (character scanner) and `Parser` (recursive-descent
parser with panic-mode recovery), with theorems settling the frozen claims.

Modelling conventions:
* Python strings are Lean `String`s over `List Char`; the character-class
  predicates (`str.isspace`, `str.isdigit`, `str.islower`, `str.isupper`,
  `str.isalnum`) are modelled on their ASCII behaviour, which is all the
  grammar's token classes use.
* `Lexer.tokenize` is a Python generator that can raise `ValueError`
  (unterminated quoted atom).  A run of the generator is modelled as the
  finite list `List (Except String Lexeme)`: each `next()` pops one entry,
  `Except.ok` a yielded lexeme, `Except.error` a raised `ValueError` (after
  which the generator is exhausted, so the error entry is always last).
  An empty list means the generator is exhausted (`StopIteration`).
* Python `int` line/column numbers are `Int` (the parser fabricates a
  line -1, char -1 position at end of input).
* Parser methods mutate `self` and may raise; they are modelled as functions
  `PState → Option (PState × Option String)`: `none` is "out of fuel" (the
  fuel argument bounds recursion depth; sufficiency of the chosen fuel is
  proved), `some (st, none)` a normal return, `some (st, some e)` a raised
  exception `e` propagating with the state as mutated so far.
-/

/-- The single-quote character, written by code so that no string literal in
this file needs to contain a quote. -/
def quoteC : Char := Char.ofNat 39

/-- The string consisting of one single-quote character. -/
def quoteS : String := String.singleton quoteC

/-- The string consisting of one backslash character. -/
def bsl : String := String.singleton (Char.ofNat 92)

/-- `TokenType` from `src/main.py`: the fixed token-kind enumeration. -/
inductive TokenType where
  | PLUS | MINUS | MULTIPLY | DIVIDE | ESCAPE | CARET | TILDE | COLON
  | COLON_DASH | PERIOD | COMMA | OPEN_PAREN | CLOSE_PAREN | QUERY
  | ATOM | VARIABLE | NUMERAL | EOF | INVALID
deriving DecidableEq, Repr

/-- Python's `str(TokenType.X)` as used in the parser's `match` message. -/
def TokenType.str : TokenType → String
  | .PLUS => "TokenType.PLUS"
  | .MINUS => "TokenType.MINUS"
  | .MULTIPLY => "TokenType.MULTIPLY"
  | .DIVIDE => "TokenType.DIVIDE"
  | .ESCAPE => "TokenType.ESCAPE"
  | .CARET => "TokenType.CARET"
  | .TILDE => "TokenType.TILDE"
  | .COLON => "TokenType.COLON"
  | .COLON_DASH => "TokenType.COLON_DASH"
  | .PERIOD => "TokenType.PERIOD"
  | .COMMA => "TokenType.COMMA"
  | .OPEN_PAREN => "TokenType.OPEN_PAREN"
  | .CLOSE_PAREN => "TokenType.CLOSE_PAREN"
  | .QUERY => "TokenType.QUERY"
  | .ATOM => "TokenType.ATOM"
  | .VARIABLE => "TokenType.VARIABLE"
  | .NUMERAL => "TokenType.NUMERAL"
  | .EOF => "TokenType.EOF"
  | .INVALID => "TokenType.INVALID"

/-- `Lexeme` from `src/main.py`: token kind, literal text, 1-based line,
column (`char_position`, the counter after consuming the lexeme's first
character). -/
structure Lexeme where
  token_type : TokenType
  value : String
  line : Int
  char_position : Int
deriving DecidableEq, Repr

/-- Python `str.isspace` on the ASCII whitespace characters. -/
def isSpaceP (c : Char) : Bool :=
  c ∈ [' ', Char.ofNat 9, Char.ofNat 10, Char.ofNat 11, Char.ofNat 12, Char.ofNat 13]

/-- Python `str.isdigit` (ASCII). -/
def isDigitP (c : Char) : Bool := c.isDigit

/-- Python `str.islower` (ASCII). -/
def isLowerP (c : Char) : Bool := c.isLower

/-- Python `str.isupper` (ASCII). -/
def isUpperP (c : Char) : Bool := c.isUpper

/-- Python `str.isalnum` (ASCII): letter or digit. -/
def isAlnumP (c : Char) : Bool := c.isAlpha || c.isDigit

/-- The identifier-continuation test of `tokenize_atom` / `tokenize_variable`:
`peek.isalnum() or peek == '_'`. -/
def isIdentP (c : Char) : Bool := isAlnumP c || c = '_'

/-- One step of `Lexer.get_next_char` on a consumed character: the new line
counter (line + 1 at a newline). -/
def nextLine (ch : Char) (l : Int) : Int := if ch = Char.ofNat 10 then l + 1 else l

/-- One step of `Lexer.get_next_char`: the new `char_position` counter
(reset to 0 at a newline, else incremented). -/
def nextCol (ch : Char) (c : Int) : Int := if ch = Char.ofNat 10 then 0 else c + 1

/-- The `while self.peek_next_char() and pred(...)` accumulation loop shared by
`tokenize_numeral`, `tokenize_atom` and `tokenize_variable`: consume characters
satisfying `p`, appending each to `acc` and updating line/column as
`get_next_char` does.  Returns the accumulated text and the scanner state at
the first non-matching character (or end of input). -/
def spanWhile (p : Char → Bool) : List Char → Int → Int → String →
    String × List Char × Int × Int
  | [], l, c, acc => (acc, [], l, c)
  | ch :: rest, l, c, acc =>
    if p ch then spanWhile p rest (nextLine ch l) (nextCol ch c) (acc.push ch)
    else (acc, ch :: rest, l, c)

/-- The body of `Lexer.tokenize_string`, entered after the opening quote has
been consumed: consume characters verbatim until a closing quote
(`Except.ok`: the quoted-`Atom` lexeme and the scanner state after the
closing quote) or the end of input (`Except.error`: the `ValueError` message
raised by the Python code).  `startPos` is `start_position`, the column of
the opening quote. -/
def stringLoop : List Char → Int → Int → String → Int →
    Except String (Lexeme × List Char × Int × Int)
  | [], l, _, _, startPos =>
    .error ("Unterminated string starting at line " ++ toString l ++ ", char "
      ++ toString startPos)
  | ch :: rest, l, c, acc, startPos =>
    if ch = quoteC then
      .ok (⟨.ATOM, acc, nextLine ch l, startPos⟩, rest, nextLine ch l, nextCol ch c)
    else stringLoop rest (nextLine ch l) (nextCol ch c) (acc.push ch) startPos

/-- The outcome of one iteration of the `while True` loop in
`Lexer.tokenize`: a yielded token with the scanner state after it, a skipped
whitespace character, the terminal `EOF` lexeme, or the fatal
unterminated-quote `ValueError`. -/
inductive ScanStep where
  | tok : Lexeme → List Char → Int → Int → ScanStep
  | skip : List Char → Int → Int → ScanStep
  | eof : Lexeme → ScanStep
  | fatal : String → ScanStep
deriving DecidableEq, Repr

/-- `Lexer.tokenize_numeral`: called with the already-consumed first digit
and the scanner state after it; `start_position` is the column of that first
digit.  The resulting lexeme's line is the line after the maximal digit run. -/
def tokenize_numeral (ch : Char) (rest : List Char) (l c : Int) :
    Lexeme × List Char × Int × Int :=
  match spanWhile isDigitP rest l c (String.singleton ch) with
  | (v, rest2, l2, c2) => (⟨.NUMERAL, v, l2, c⟩, rest2, l2, c2)

/-- `Lexer.tokenize_atom`: maximal run of letters, digits and underscores
after the consumed lowercase first letter. -/
def tokenize_atom (ch : Char) (rest : List Char) (l c : Int) :
    Lexeme × List Char × Int × Int :=
  match spanWhile isIdentP rest l c (String.singleton ch) with
  | (v, rest2, l2, c2) => (⟨.ATOM, v, l2, c⟩, rest2, l2, c2)

/-- `Lexer.tokenize_variable`: maximal run of letters, digits and
underscores after the consumed uppercase-or-underscore first character. -/
def tokenize_variable (ch : Char) (rest : List Char) (l c : Int) :
    Lexeme × List Char × Int × Int :=
  match spanWhile isIdentP rest l c (String.singleton ch) with
  | (v, rest2, l2, c2) => (⟨.VARIABLE, v, l2, c⟩, rest2, l2, c2)

/-- `Lexer.tokenize_string`: called after the opening quote has been
consumed; `start_position` is the opening quote's column `c`. -/
def tokenize_string (rest : List Char) (l c : Int) :
    Except String (Lexeme × List Char × Int × Int) :=
  stringLoop rest l c "" c

/-- One iteration of the `while True` loop of `Lexer.tokenize`: consume one
character with `get_next_char` and classify it exactly as the `if/elif`
chain in the source does (same order of tests). -/
def scanStep : List Char → Int → Int → ScanStep
  | [], l, c => .eof ⟨.EOF, "EOF", l, c⟩
  | ch :: rest, l, c =>
    let l1 := nextLine ch l
    let c1 := nextCol ch c
    if isSpaceP ch then .skip rest l1 c1
    else if ch = '+' then .tok ⟨.PLUS, "+", l1, c1⟩ rest l1 c1
    else if ch = '-' then .tok ⟨.MINUS, "-", l1, c1⟩ rest l1 c1
    else if ch = '*' then .tok ⟨.MULTIPLY, "*", l1, c1⟩ rest l1 c1
    else if ch = '/' then .tok ⟨.DIVIDE, "/", l1, c1⟩ rest l1 c1
    else if ch = Char.ofNat 92 then .tok ⟨.ESCAPE, bsl, l1, c1⟩ rest l1 c1
    else if ch = '^' then .tok ⟨.CARET, "^", l1, c1⟩ rest l1 c1
    else if ch = '~' then .tok ⟨.TILDE, "~", l1, c1⟩ rest l1 c1
    else if ch = quoteC then
      match tokenize_string rest l1 c1 with
      | .error m => .fatal m
      | .ok (lex, rest2, l2, c2) => .tok lex rest2 l2 c2
    else if ch = ':' then
      match rest with
      | '-' :: rest2 => .tok ⟨.COLON_DASH, ":-", l1, c1⟩ rest2 l1 (c1 + 1)
      | _ => .tok ⟨.COLON, ":", l1, c1⟩ rest l1 c1
    else if ch = '?' then
      match rest with
      | '-' :: rest2 => .tok ⟨.QUERY, "?-", l1, c1⟩ rest2 l1 (c1 + 1)
      | _ => .tok ⟨.INVALID, "?", l1, c1⟩ rest l1 c1
    else if ch = '.' then .tok ⟨.PERIOD, ".", l1, c1⟩ rest l1 c1
    else if ch = ',' then .tok ⟨.COMMA, ",", l1, c1⟩ rest l1 c1
    else if ch = '(' then .tok ⟨.OPEN_PAREN, "(", l1, c1⟩ rest l1 c1
    else if ch = ')' then .tok ⟨.CLOSE_PAREN, ")", l1, c1⟩ rest l1 c1
    else if isDigitP ch then
      match tokenize_numeral ch rest l1 c1 with
      | (lex, rest2, l2, c2) => .tok lex rest2 l2 c2
    else if isLowerP ch then
      match tokenize_atom ch rest l1 c1 with
      | (lex, rest2, l2, c2) => .tok lex rest2 l2 c2
    else if isUpperP ch || ch = '_' then
      match tokenize_variable ch rest l1 c1 with
      | (lex, rest2, l2, c2) => .tok lex rest2 l2 c2
    else .tok ⟨.INVALID, String.singleton ch, l1, c1⟩ rest l1 c1

/-- The full run of the `Lexer.tokenize` generator, as the list of its
outcomes: `Except.ok` for each yielded lexeme (the final `EOF` lexeme
included) and a trailing `Except.error` if `tokenize_string` raised.  Each
loop iteration consumes at least one character, so fuel exceeding the input
length never runs out (proved below); an exhausted fuel yields `[]`. -/
def lexAux : Nat → List Char → Int → Int → List (Except String Lexeme)
  | 0, _, _, _ => []
  | f + 1, cs, l, c =>
    match scanStep cs l c with
    | .eof lex => [.ok lex]
    | .fatal m => [.error m]
    | .skip cs2 l2 c2 => lexAux f cs2 l2 c2
    | .tok lex cs2 l2 c2 => .ok lex :: lexAux f cs2 l2 c2

/-- `Lexer(code)` followed by a full run of `tokenize()`: line starts at 1,
`char_position` at 0. -/
def lexAll (code : String) : List (Except String Lexeme) :=
  lexAux (code.toList.length + 1) code.toList 1 0

/-- The `EOF` lexeme that `Parser.advance` fabricates when the token
generator is exhausted (`StopIteration`): line -1, char -1. -/
def eofNeg : Lexeme := ⟨.EOF, "EOF", -1, -1⟩

/-- Decidable equality for generator entries. -/
instance : DecidableEq (Except String Lexeme) := fun x y =>
  match x, y with
  | .error a, .error b =>
    if h : a = b then .isTrue (by rw [h]) else .isFalse (by simp [h])
  | .ok a, .ok b =>
    if h : a = b then .isTrue (by rw [h]) else .isFalse (by simp [h])
  | .error _, .ok _ => .isFalse (by simp)
  | .ok _, .error _ => .isFalse (by simp)

/-- `ParserState`: the remaining run of the token generator (`self.tokens`),
the one-token lookahead (`self.current_token`) and the diagnostics list
(`self.errors`). -/
structure PState where
  gen : List (Except String Lexeme)
  current : Lexeme
  errors : List String
deriving DecidableEq, Repr

/-- The result of running one parser method: `none` out of fuel,
`some (st, none)` normal return, `some (st, some e)` an uncaught Python
exception `e` leaving the state `st` behind. -/
def PRes : Type := Option (PState × Option String)

/-- Sequencing of parser steps: an exception short-circuits (propagates to
the caller), as in Python. -/
def bindP (r : PRes) (k : PState → PRes) : PRes :=
  match r with
  | none => none
  | some (st, some e) => some (st, some e)
  | some (st, none) => k st

/-- A Python `try`/`except Exception as e` block around `r`: a raised
exception is handed to `h` with the state as mutated at the raise point. -/
def catchP (r : PRes) (h : String → PState → PRes) : PRes :=
  match r with
  | none => none
  | some (st, some e) => h e st
  | some (st, none) => some (st, none)

/-- The synchronization set of `Parser.recover` (`sync_tokens` in the
source): `PERIOD`, `COMMA`, `QUERY`, `EOF`, `CLOSE_PAREN`. -/
def syncKinds : List TokenType := [.PERIOD, .COMMA, .QUERY, .EOF, .CLOSE_PAREN]

/-- The diagnostic record format of `Parser.error`:
`"Syntax Error: <message> at line <line>, char <char_position>"`, positioned
at the current token. -/
def fmtErr (msg : String) (cur : Lexeme) : String :=
  "Syntax Error: " ++ msg ++ " at line " ++ toString cur.line ++ ", char "
    ++ toString cur.char_position

/- `Parser.advance`, `Parser.error` and `Parser.recover`, which are mutually
recursive in the source: `advance` pulls the next generator entry (an
exhausted generator yields the fabricated `eofNeg` lexeme; a raised
`ValueError` propagates, leaving `current_token` unchanged) and reports an
`INVALID` lexeme through `error`; `error` appends the formatted diagnostic
and invokes `recover`; `recover` discards tokens until the current token's
kind is in `syncKinds` (or is `EOF`). -/
mutual

def advanceF : Nat → PState → PRes
  | 0, _ => none
  | f + 1, st =>
    match st.gen with
    | [] => some ({ st with current := eofNeg }, none)
    | .error m :: rest => some ({ st with gen := rest }, some m)
    | .ok lex :: rest =>
      let st1 : PState := { st with gen := rest, current := lex }
      if lex.token_type = .INVALID then
        errorF f ("Invalid token " ++ quoteS ++ lex.value) st1
      else some (st1, none)

def errorF : Nat → String → PState → PRes
  | 0, _, _ => none
  | f + 1, msg, st =>
    recoverF f { st with errors := st.errors ++ [fmtErr msg st.current] }

def recoverF : Nat → PState → PRes
  | 0, _ => none
  | f + 1, st =>
    if st.current.token_type ∈ syncKinds ∨ st.current.token_type = .EOF then
      some (st, none)
    else bindP (advanceF f st) (recoverF f)

end

/-- `Parser.match` (renamed: `match` is reserved in Lean): advance on the
expected kind, otherwise record the expected/found diagnostic through
`error` (which itself invokes `recover`). -/
def matchTok (f : Nat) (expected : TokenType) (st : PState) : PRes :=
  if st.current.token_type = expected then advanceF f st
  else
    errorF f ("Expected " ++ expected.str ++ ", but found "
      ++ st.current.token_type.str) st

/- `Parser.term` and `Parser.term_list`, mutually recursive in the source.
`term_list_handlerF` is the `except` branch of `term_list`'s loop body: it
records the exception as a diagnostic, advances unless the current token is
`COMMA` or `CLOSE_PAREN`, and re-enters the loop (an exception raised inside
the handler itself propagates out of the loop). -/
mutual

def termF : Nat → PState → PRes
  | 0, _ => none
  | f + 1, st =>
    catchP
      (if st.current.token_type = .ATOM then
        bindP (advanceF f st) (fun st1 =>
          if st1.current.token_type = .OPEN_PAREN then
            bindP (advanceF f st1) (fun st2 =>
              bindP (term_listF f st2) (fun st3 =>
                matchTok f .CLOSE_PAREN st3))
          else some (st1, none))
      else if st.current.token_type = .VARIABLE ∨ st.current.token_type = .NUMERAL then
        advanceF f st
      else errorF f "Expected <term>" st)
      (fun e st4 => errorF f ("Error in term: " ++ e) st4)

def term_listF : Nat → PState → PRes
  | 0, _ => none
  | f + 1, st =>
    match termF f st with
    | none => none
    | some (st1, some e) => term_list_handlerF f e st1
    | some (st1, none) =>
      if st1.current.token_type = .COMMA then
        match advanceF f st1 with
        | none => none
        | some (st2, some e) => term_list_handlerF f e st2
        | some (st2, none) => term_listF f st2
      else some (st1, none)

def term_list_handlerF : Nat → String → PState → PRes
  | 0, _, _ => none
  | f + 1, e, st =>
    match errorF f ("Error in term list: " ++ e) st with
    | none => none
    | some (st1, some e2) => some (st1, some e2)
    | some (st1, none) =>
      if st1.current.token_type = .COMMA ∨ st1.current.token_type = .CLOSE_PAREN then
        term_listF f st1
      else
        match advanceF f st1 with
        | none => none
        | some (st2, some e2) => some (st2, some e2)
        | some (st2, none) => term_listF f st2

end

/-- `Parser.predicate`: an `ATOM` optionally applied to a parenthesized
`term_list`; anything else is reported.  The whole body is wrapped in
`try`/`except`. -/
def predicateF (f : Nat) (st : PState) : PRes :=
  catchP
    (if st.current.token_type = .ATOM then
      bindP (advanceF f st) (fun st1 =>
        if st1.current.token_type = .OPEN_PAREN then
          bindP (advanceF f st1) (fun st2 =>
            bindP (term_listF f st2) (fun st3 =>
              matchTok f .CLOSE_PAREN st3))
        else some (st1, none))
    else errorF f "Expected <atom> in predicate" st)
    (fun e st4 => errorF f ("Error in predicate: " ++ e) st4)

/- `Parser.predicate_list`: one `predicate` per iteration, continuing past a
`COMMA`; the `except` branch (`predicate_list_handlerF`) records the
exception, advances unless the current token is `COMMA`, `PERIOD` or
`QUERY`, and re-enters the loop. -/
mutual

def predicate_listF : Nat → PState → PRes
  | 0, _ => none
  | f + 1, st =>
    match predicateF f st with
    | none => none
    | some (st1, some e) => predicate_list_handlerF f e st1
    | some (st1, none) =>
      if st1.current.token_type = .COMMA then
        match advanceF f st1 with
        | none => none
        | some (st2, some e) => predicate_list_handlerF f e st2
        | some (st2, none) => predicate_listF f st2
      else some (st1, none)

def predicate_list_handlerF : Nat → String → PState → PRes
  | 0, _, _ => none
  | f + 1, e, st =>
    match errorF f ("Error in predicate list: " ++ e) st with
    | none => none
    | some (st1, some e2) => some (st1, some e2)
    | some (st1, none) =>
      if st1.current.token_type = .COMMA ∨ st1.current.token_type = .PERIOD
          ∨ st1.current.token_type = .QUERY then
        predicate_listF f st1
      else
        match advanceF f st1 with
        | none => none
        | some (st2, some e2) => some (st2, some e2)
        | some (st2, none) => predicate_listF f st2

end

/-- `Parser.clause`: a `predicate`, then `.` (fact) or `:-` followed by a
`predicate_list` and a required `.`; otherwise the terminator diagnostic.
The whole body is wrapped in `try`/`except`. -/
def clauseF (f : Nat) (st : PState) : PRes :=
  catchP
    (bindP (predicateF f st) (fun st1 =>
      if st1.current.token_type = .PERIOD then advanceF f st1
      else if st1.current.token_type = .COLON_DASH then
        bindP (advanceF f st1) (fun st2 =>
          bindP (predicate_listF f st2) (fun st3 =>
            matchTok f .PERIOD st3))
      else
        errorF f ("Expected " ++ quoteS ++ "." ++ quoteS ++ " or " ++ quoteS
          ++ ":-" ++ quoteS ++ " after predicate") st1))
    (fun e st4 => errorF f ("Error in clause: " ++ e) st4)

/- `Parser.clause_list`: one `clause` per iteration, stopping once the
current token is no longer `ATOM`; the `except` branch
(`clause_list_handlerF`) records the exception, advances unless the current
token is `ATOM` or `QUERY`, and re-enters the loop. -/
mutual

def clause_listF : Nat → PState → PRes
  | 0, _ => none
  | f + 1, st =>
    match clauseF f st with
    | none => none
    | some (st1, some e) => clause_list_handlerF f e st1
    | some (st1, none) =>
      if st1.current.token_type = .ATOM then clause_listF f st1
      else some (st1, none)

def clause_list_handlerF : Nat → String → PState → PRes
  | 0, _, _ => none
  | f + 1, e, st =>
    match errorF f ("Error in clause list: " ++ e) st with
    | none => none
    | some (st1, some e2) => some (st1, some e2)
    | some (st1, none) =>
      if st1.current.token_type = .ATOM ∨ st1.current.token_type = .QUERY then
        clause_listF f st1
      else
        match advanceF f st1 with
        | none => none
        | some (st2, some e2) => some (st2, some e2)
        | some (st2, none) => clause_listF f st2

end

/-- `Parser.query`: `?-`, a `predicate_list`, then a required `.` (reported
if missing).  `query` has no `try`/`except` of its own. -/
def queryF (f : Nat) (st : PState) : PRes :=
  if st.current.token_type = .QUERY then
    bindP (advanceF f st) (fun st1 =>
      bindP (predicate_listF f st1) (fun st2 =>
        if st2.current.token_type = .PERIOD then advanceF f st2
        else
          errorF f ("Expected " ++ quoteS ++ "." ++ quoteS
            ++ " at the end of query") st2))
  else errorF f ("Expected " ++ quoteS ++ "?-" ++ quoteS ++ " to start a query") st

/-- `Parser.program`: a query, or a clause list possibly followed by a query;
in the clause-list branch a trailing token that is neither `QUERY` nor `EOF`
is reported.  There is no end-of-input check after the query branch. -/
def programF (f : Nat) (st : PState) : PRes :=
  if st.current.token_type = .QUERY then queryF f st
  else if st.current.token_type = .ATOM then
    bindP (clause_listF f st) (fun st1 =>
      if st1.current.token_type = .QUERY then queryF f st1
      else if st1.current.token_type ≠ .EOF then
        errorF f "Expected <query> or end of file after clause list" st1
      else some (st1, none))
  else errorF f "Expected <clause-list> or <query> at start of program" st

/-- `Parser.parse`: runs `program` inside `try`/`except Exception`, printing
(and otherwise swallowing) any exception, so no exception escapes `parse`. -/
def parseF (f : Nat) (st : PState) : PRes :=
  catchP (programF f st) (fun _ st1 => some (st1, none))

/-- The fuel used for a complete run over `code`: ample for the proved
sufficiency bounds. -/
def fuelFor (code : String) : Nat := 6 * code.toList.length + 60

/-- `Parser.__init__` on `Lexer(code)`: the token generator is a fresh run of
`tokenize`, `current_token` starts as Python `None` (a placeholder lexeme
here; the immediate `advance()` overwrites it unless the very first `next`
raises), `errors` starts empty, and `advance()` is called once. -/
def initParser (code : String) : PRes :=
  advanceF (fuelFor code) ⟨lexAll code, ⟨.EOF, "", 0, 0⟩, []⟩

/-- A whole unit's run as the driver performs it: construct the parser
(initial `advance`), then `parse`.  An exception raised during construction
propagates to the caller (there is no handler around `__init__`); `parse`
itself swallows exceptions. -/
def runParse (code : String) : PRes :=
  bindP (initParser code) (parseF (fuelFor code))

/-- Whether a generator entry is a yielded `EOF` lexeme. -/
def isEofEntry : Except String Lexeme → Bool
  | .ok lex => lex.token_type = .EOF
  | .error _ => false

/-- How many `EOF` lexemes a generator run contains. -/
def eofCount (ts : List (Except String Lexeme)) : Nat :=
  (ts.filter isEofEntry).length

/-- Termination measure for the parser: twice the number of generator
entries left, plus one unless the lookahead is already `EOF`.  Every
token-consuming step strictly decreases it. -/
def measureP (st : PState) : Nat :=
  2 * st.gen.length + (if st.current.token_type = .EOF then 0 else 1)

/-- What every parser method guarantees about its result: the measure never
grows, an uncaught exception implies the measure strictly shrank (an
exception only arises from consuming the generator's `Except.error` entry),
and the diagnostics list only gets appended to. -/
def Post (st st1 : PState) (e : Option String) : Prop :=
  measureP st1 ≤ measureP st ∧ (e ≠ none → measureP st1 < measureP st)
    ∧ ∃ δ, st1.errors = st.errors ++ δ

/-- String-level fact used by the scanner lemmas: pushing then appending is
appending the consed list. -/
theorem push_append_mk (acc : String) (ch : Char) (t : List Char) :
    acc.push ch ++ String.mk t = acc ++ String.mk (ch :: t) := by
  cases acc with
  | mk d =>
    show String.mk ((d ++ [ch]) ++ t) = String.mk (d ++ (ch :: t))
    rw [List.append_assoc]
    rfl

/-- `spanWhile` never lengthens the remaining input. -/
theorem spanWhile_rest_length (p : Char → Bool) :
    ∀ (cs : List Char) (l c : Int) (acc : String),
      ((spanWhile p cs l c acc).2.1).length ≤ cs.length := by
  intro cs
  induction cs with
  | nil => intro l c acc; simp [spanWhile]
  | cons ch rest ih =>
    intro l c acc
    simp only [spanWhile]
    split
    · exact le_trans (ih _ _ _) (Nat.le_succ _)
    · simp

/-- For a predicate that never accepts a newline, `spanWhile` is exactly
take-while/drop-while: the accumulated text grows by the maximal matching
prefix, the line is unchanged and the column advances by its length. -/
theorem spanWhile_eq (p : Char → Bool) (hp : ∀ x, p x = true → x ≠ Char.ofNat 10) :
    ∀ (cs : List Char) (l c : Int) (acc : String),
      spanWhile p cs l c acc =
        (acc ++ String.mk (cs.takeWhile p), cs.dropWhile p, l,
          c + (cs.takeWhile p).length) := by
  intro cs
  induction cs with
  | nil =>
    intro l c acc
    simp [spanWhile, String.mk]
  | cons ch rest ih =>
    intro l c acc
    simp only [spanWhile]
    by_cases hpc : p ch = true
    · rw [if_pos hpc]
      rw [ih]
      have hnl : ch ≠ Char.ofNat 10 := hp ch hpc
      simp only [List.takeWhile, List.dropWhile, hpc]
      rw [push_append_mk]
      have h1 : nextLine ch l = l := by simp [nextLine, hnl]
      have h2 : nextCol ch c = c + 1 := by simp [nextCol, hnl]
      rw [h1, h2]
      have h3 : (c + 1) + ((rest.takeWhile p).length : Int)
          = c + ((ch :: rest.takeWhile p).length : Int) := by
        simp only [List.length_cons]
        push_cast
        omega
      rw [h3]
    · rw [if_neg hpc]
      simp only [List.takeWhile, List.dropWhile]
      rw [Bool.not_eq_true] at hpc
      rw [hpc]
      simp only [cond_false]
      have : acc ++ String.mk [] = acc := by
        cases acc with
        | mk d => show String.mk (d ++ []) = String.mk d; rw [List.append_nil]
      rw [this]
      simp

/-- A successful `stringLoop` strictly shortens the remaining input (it
consumes at least the closing quote). -/
theorem stringLoop_rest_length :
    ∀ (cs : List Char) (l c : Int) (acc : String) (sp : Int)
      (lex : Lexeme) (rest2 : List Char) (l2 c2 : Int),
      stringLoop cs l c acc sp = .ok (lex, rest2, l2, c2) →
        rest2.length < cs.length := by
  intro cs
  induction cs with
  | nil => intro l c acc sp lex rest2 l2 c2 h; simp [stringLoop] at h
  | cons ch rest ih =>
    intro l c acc sp lex rest2 l2 c2 h
    simp only [stringLoop] at h
    split at h
    · simp only [Except.ok.injEq, Prod.mk.injEq] at h
      obtain ⟨-, h2, -, -⟩ := h
      subst h2
      simp
    · exact lt_trans (ih _ _ _ _ _ _ _ _ h) (Nat.lt_succ_self _)

/-- A quoted atom comes back from `stringLoop` as an `ATOM` lexeme carrying
the recorded `start_position` (the opening quote's column). -/
theorem stringLoop_ok_shape :
    ∀ (cs : List Char) (l c : Int) (acc : String) (sp : Int)
      (lex : Lexeme) (rest2 : List Char) (l2 c2 : Int),
      stringLoop cs l c acc sp = .ok (lex, rest2, l2, c2) →
        lex.token_type = .ATOM ∧ lex.char_position = sp := by
  intro cs
  induction cs with
  | nil => intro l c acc sp lex rest2 l2 c2 h; simp [stringLoop] at h
  | cons ch rest ih =>
    intro l c acc sp lex rest2 l2 c2 h
    simp only [stringLoop] at h
    split at h
    · simp only [Except.ok.injEq, Prod.mk.injEq] at h
      obtain ⟨h1, -, -, -⟩ := h
      subst h1
      exact ⟨rfl, rfl⟩
    · exact ih _ _ _ _ _ _ _ _ h



/-- `tokenize_numeral` never lengthens the remaining input. -/
theorem tokenize_numeral_rest_length (ch : Char) (rest : List Char) (l c : Int) :
    (tokenize_numeral ch rest l c).2.1.length ≤ rest.length := by
  simp only [tokenize_numeral]
  exact spanWhile_rest_length isDigitP rest l c (String.singleton ch)

/-- `tokenize_atom` never lengthens the remaining input. -/
theorem tokenize_atom_rest_length (ch : Char) (rest : List Char) (l c : Int) :
    (tokenize_atom ch rest l c).2.1.length ≤ rest.length := by
  simp only [tokenize_atom]
  exact spanWhile_rest_length isIdentP rest l c (String.singleton ch)

/-- `tokenize_variable` never lengthens the remaining input. -/
theorem tokenize_variable_rest_length (ch : Char) (rest : List Char) (l c : Int) :
    (tokenize_variable ch rest l c).2.1.length ≤ rest.length := by
  simp only [tokenize_variable]
  exact spanWhile_rest_length isIdentP rest l c (String.singleton ch)

/-- Case analysis for one scanner iteration on a non-empty input, following
the `if/elif` chain of `Lexer.tokenize` literally: one hypothesis per branch,
each carrying the conditions under which the branch fires. -/
theorem scanStep_elim (motive : ScanStep → Prop) (ch : Char) (rest : List Char)
    (l c : Int)
    (bSpace : isSpaceP ch = true → motive (.skip rest (nextLine ch l) (nextCol ch c)))
    (bPlus : isSpaceP ch = false ∧ ch = '+' → motive (.tok ⟨.PLUS, "+", nextLine ch l, nextCol ch c⟩ rest (nextLine ch l) (nextCol ch c)))
    (bMinus : isSpaceP ch = false ∧ ch ≠ '+' ∧ ch = '-' → motive (.tok ⟨.MINUS, "-", nextLine ch l, nextCol ch c⟩ rest (nextLine ch l) (nextCol ch c)))
    (bMul : isSpaceP ch = false ∧ ch ≠ '+' ∧ ch ≠ '-' ∧ ch = '*' → motive (.tok ⟨.MULTIPLY, "*", nextLine ch l, nextCol ch c⟩ rest (nextLine ch l) (nextCol ch c)))
    (bDiv : isSpaceP ch = false ∧ ch ≠ '+' ∧ ch ≠ '-' ∧ ch ≠ '*' ∧ ch = '/' → motive (.tok ⟨.DIVIDE, "/", nextLine ch l, nextCol ch c⟩ rest (nextLine ch l) (nextCol ch c)))
    (bEsc : isSpaceP ch = false ∧ ch ≠ '+' ∧ ch ≠ '-' ∧ ch ≠ '*' ∧ ch ≠ '/' ∧ ch = Char.ofNat 92 → motive (.tok ⟨.ESCAPE, bsl, nextLine ch l, nextCol ch c⟩ rest (nextLine ch l) (nextCol ch c)))
    (bCaret : isSpaceP ch = false ∧ ch ≠ '+' ∧ ch ≠ '-' ∧ ch ≠ '*' ∧ ch ≠ '/' ∧ ch ≠ Char.ofNat 92 ∧ ch = '^' → motive (.tok ⟨.CARET, "^", nextLine ch l, nextCol ch c⟩ rest (nextLine ch l) (nextCol ch c)))
    (bTilde : isSpaceP ch = false ∧ ch ≠ '+' ∧ ch ≠ '-' ∧ ch ≠ '*' ∧ ch ≠ '/' ∧ ch ≠ Char.ofNat 92 ∧ ch ≠ '^' ∧ ch = '~' → motive (.tok ⟨.TILDE, "~", nextLine ch l, nextCol ch c⟩ rest (nextLine ch l) (nextCol ch c)))
    (bQuoteErr : isSpaceP ch = false ∧ ch ≠ '+' ∧ ch ≠ '-' ∧ ch ≠ '*' ∧ ch ≠ '/' ∧ ch ≠ Char.ofNat 92 ∧ ch ≠ '^' ∧ ch ≠ '~' ∧ ch = quoteC → ∀ m, tokenize_string rest (nextLine ch l) (nextCol ch c) = .error m → motive (.fatal m))
    (bQuoteOk : isSpaceP ch = false ∧ ch ≠ '+' ∧ ch ≠ '-' ∧ ch ≠ '*' ∧ ch ≠ '/' ∧ ch ≠ Char.ofNat 92 ∧ ch ≠ '^' ∧ ch ≠ '~' ∧ ch = quoteC → ∀ lex rest2 l2 c2, tokenize_string rest (nextLine ch l) (nextCol ch c) = .ok (lex, rest2, l2, c2) → motive (.tok lex rest2 l2 c2))
    (bColonDash : isSpaceP ch = false ∧ ch ≠ '+' ∧ ch ≠ '-' ∧ ch ≠ '*' ∧ ch ≠ '/' ∧ ch ≠ Char.ofNat 92 ∧ ch ≠ '^' ∧ ch ≠ '~' ∧ ch ≠ quoteC ∧ ch = ':' → ∀ rest2, rest = '-' :: rest2 → motive (.tok ⟨.COLON_DASH, ":-", nextLine ch l, nextCol ch c⟩ rest2 (nextLine ch l) (nextCol ch c + 1)))
    (bColon : isSpaceP ch = false ∧ ch ≠ '+' ∧ ch ≠ '-' ∧ ch ≠ '*' ∧ ch ≠ '/' ∧ ch ≠ Char.ofNat 92 ∧ ch ≠ '^' ∧ ch ≠ '~' ∧ ch ≠ quoteC ∧ ch = ':' → motive (.tok ⟨.COLON, ":", nextLine ch l, nextCol ch c⟩ rest (nextLine ch l) (nextCol ch c)))
    (bQueryDash : isSpaceP ch = false ∧ ch ≠ '+' ∧ ch ≠ '-' ∧ ch ≠ '*' ∧ ch ≠ '/' ∧ ch ≠ Char.ofNat 92 ∧ ch ≠ '^' ∧ ch ≠ '~' ∧ ch ≠ quoteC ∧ ch ≠ ':' ∧ ch = '?' → ∀ rest2, rest = '-' :: rest2 → motive (.tok ⟨.QUERY, "?-", nextLine ch l, nextCol ch c⟩ rest2 (nextLine ch l) (nextCol ch c + 1)))
    (bQueryInv : isSpaceP ch = false ∧ ch ≠ '+' ∧ ch ≠ '-' ∧ ch ≠ '*' ∧ ch ≠ '/' ∧ ch ≠ Char.ofNat 92 ∧ ch ≠ '^' ∧ ch ≠ '~' ∧ ch ≠ quoteC ∧ ch ≠ ':' ∧ ch = '?' → motive (.tok ⟨.INVALID, "?", nextLine ch l, nextCol ch c⟩ rest (nextLine ch l) (nextCol ch c)))
    (bPeriod : isSpaceP ch = false ∧ ch ≠ '+' ∧ ch ≠ '-' ∧ ch ≠ '*' ∧ ch ≠ '/' ∧ ch ≠ Char.ofNat 92 ∧ ch ≠ '^' ∧ ch ≠ '~' ∧ ch ≠ quoteC ∧ ch ≠ ':' ∧ ch ≠ '?' ∧ ch = '.' → motive (.tok ⟨.PERIOD, ".", nextLine ch l, nextCol ch c⟩ rest (nextLine ch l) (nextCol ch c)))
    (bComma : isSpaceP ch = false ∧ ch ≠ '+' ∧ ch ≠ '-' ∧ ch ≠ '*' ∧ ch ≠ '/' ∧ ch ≠ Char.ofNat 92 ∧ ch ≠ '^' ∧ ch ≠ '~' ∧ ch ≠ quoteC ∧ ch ≠ ':' ∧ ch ≠ '?' ∧ ch ≠ '.' ∧ ch = ',' → motive (.tok ⟨.COMMA, ",", nextLine ch l, nextCol ch c⟩ rest (nextLine ch l) (nextCol ch c)))
    (bOpen : isSpaceP ch = false ∧ ch ≠ '+' ∧ ch ≠ '-' ∧ ch ≠ '*' ∧ ch ≠ '/' ∧ ch ≠ Char.ofNat 92 ∧ ch ≠ '^' ∧ ch ≠ '~' ∧ ch ≠ quoteC ∧ ch ≠ ':' ∧ ch ≠ '?' ∧ ch ≠ '.' ∧ ch ≠ ',' ∧ ch = '(' → motive (.tok ⟨.OPEN_PAREN, "(", nextLine ch l, nextCol ch c⟩ rest (nextLine ch l) (nextCol ch c)))
    (bClose : isSpaceP ch = false ∧ ch ≠ '+' ∧ ch ≠ '-' ∧ ch ≠ '*' ∧ ch ≠ '/' ∧ ch ≠ Char.ofNat 92 ∧ ch ≠ '^' ∧ ch ≠ '~' ∧ ch ≠ quoteC ∧ ch ≠ ':' ∧ ch ≠ '?' ∧ ch ≠ '.' ∧ ch ≠ ',' ∧ ch ≠ '(' ∧ ch = ')' → motive (.tok ⟨.CLOSE_PAREN, ")", nextLine ch l, nextCol ch c⟩ rest (nextLine ch l) (nextCol ch c)))
    (bDigit : isSpaceP ch = false ∧ ch ≠ '+' ∧ ch ≠ '-' ∧ ch ≠ '*' ∧ ch ≠ '/' ∧ ch ≠ Char.ofNat 92 ∧ ch ≠ '^' ∧ ch ≠ '~' ∧ ch ≠ quoteC ∧ ch ≠ ':' ∧ ch ≠ '?' ∧ ch ≠ '.' ∧ ch ≠ ',' ∧ ch ≠ '(' ∧ ch ≠ ')' ∧ isDigitP ch = true → ∀ lex rest2 l2 c2, tokenize_numeral ch rest (nextLine ch l) (nextCol ch c) = (lex, rest2, l2, c2) → motive (.tok lex rest2 l2 c2))
    (bLower : isSpaceP ch = false ∧ ch ≠ '+' ∧ ch ≠ '-' ∧ ch ≠ '*' ∧ ch ≠ '/' ∧ ch ≠ Char.ofNat 92 ∧ ch ≠ '^' ∧ ch ≠ '~' ∧ ch ≠ quoteC ∧ ch ≠ ':' ∧ ch ≠ '?' ∧ ch ≠ '.' ∧ ch ≠ ',' ∧ ch ≠ '(' ∧ ch ≠ ')' ∧ isDigitP ch = false ∧ isLowerP ch = true → ∀ lex rest2 l2 c2, tokenize_atom ch rest (nextLine ch l) (nextCol ch c) = (lex, rest2, l2, c2) → motive (.tok lex rest2 l2 c2))
    (bUpper : isSpaceP ch = false ∧ ch ≠ '+' ∧ ch ≠ '-' ∧ ch ≠ '*' ∧ ch ≠ '/' ∧ ch ≠ Char.ofNat 92 ∧ ch ≠ '^' ∧ ch ≠ '~' ∧ ch ≠ quoteC ∧ ch ≠ ':' ∧ ch ≠ '?' ∧ ch ≠ '.' ∧ ch ≠ ',' ∧ ch ≠ '(' ∧ ch ≠ ')' ∧ isDigitP ch = false ∧ isLowerP ch = false ∧ (isUpperP ch || ch = '_') = true → ∀ lex rest2 l2 c2, tokenize_variable ch rest (nextLine ch l) (nextCol ch c) = (lex, rest2, l2, c2) → motive (.tok lex rest2 l2 c2))
    (bInvalid : isSpaceP ch = false ∧ ch ≠ '+' ∧ ch ≠ '-' ∧ ch ≠ '*' ∧ ch ≠ '/' ∧ ch ≠ Char.ofNat 92 ∧ ch ≠ '^' ∧ ch ≠ '~' ∧ ch ≠ quoteC ∧ ch ≠ ':' ∧ ch ≠ '?' ∧ ch ≠ '.' ∧ ch ≠ ',' ∧ ch ≠ '(' ∧ ch ≠ ')' ∧ isDigitP ch = false ∧ isLowerP ch = false ∧ (isUpperP ch || ch = '_') = false → motive (.tok ⟨.INVALID, String.singleton ch, nextLine ch l, nextCol ch c⟩ rest (nextLine ch l) (nextCol ch c))) :
    motive (scanStep (ch :: rest) l c) := by
  simp only [scanStep]
  by_cases c0 : isSpaceP ch = true
  · rw [if_pos c0]
    exact bSpace c0
  · have n0 : isSpaceP ch = false := by simpa using c0
    rw [if_neg c0]
    by_cases c1 : ch = '+'
    · rw [if_pos c1]
      exact bPlus ⟨n0, c1⟩
    · have n1 : ch ≠ '+' := by simpa using c1
      rw [if_neg c1]
      by_cases c2 : ch = '-'
      · rw [if_pos c2]
        exact bMinus ⟨n0, n1, c2⟩
      · have n2 : ch ≠ '-' := by simpa using c2
        rw [if_neg c2]
        by_cases c3 : ch = '*'
        · rw [if_pos c3]
          exact bMul ⟨n0, n1, n2, c3⟩
        · have n3 : ch ≠ '*' := by simpa using c3
          rw [if_neg c3]
          by_cases c4 : ch = '/'
          · rw [if_pos c4]
            exact bDiv ⟨n0, n1, n2, n3, c4⟩
          · have n4 : ch ≠ '/' := by simpa using c4
            rw [if_neg c4]
            by_cases c5 : ch = Char.ofNat 92
            · rw [if_pos c5]
              exact bEsc ⟨n0, n1, n2, n3, n4, c5⟩
            · have n5 : ch ≠ Char.ofNat 92 := by simpa using c5
              rw [if_neg c5]
              by_cases c6 : ch = '^'
              · rw [if_pos c6]
                exact bCaret ⟨n0, n1, n2, n3, n4, n5, c6⟩
              · have n6 : ch ≠ '^' := by simpa using c6
                rw [if_neg c6]
                by_cases c7 : ch = '~'
                · rw [if_pos c7]
                  exact bTilde ⟨n0, n1, n2, n3, n4, n5, n6, c7⟩
                · have n7 : ch ≠ '~' := by simpa using c7
                  rw [if_neg c7]
                  by_cases c8 : ch = quoteC
                  · rw [if_pos c8]
                    split
                    · rename_i m heq
                      exact bQuoteErr ⟨n0, n1, n2, n3, n4, n5, n6, n7, c8⟩ m heq
                    · rename_i lex rest2 l2 c2 heq
                      exact bQuoteOk ⟨n0, n1, n2, n3, n4, n5, n6, n7, c8⟩ lex rest2 l2 c2 heq
                  · have n8 : ch ≠ quoteC := by simpa using c8
                    rw [if_neg c8]
                    by_cases c9 : ch = ':'
                    · rw [if_pos c9]
                      split
                      · rename_i rest2
                        exact bColonDash ⟨n0, n1, n2, n3, n4, n5, n6, n7, n8, c9⟩ rest2 rfl
                      · exact bColon ⟨n0, n1, n2, n3, n4, n5, n6, n7, n8, c9⟩
                    · have n9 : ch ≠ ':' := by simpa using c9
                      rw [if_neg c9]
                      by_cases c10 : ch = '?'
                      · rw [if_pos c10]
                        split
                        · rename_i rest2
                          exact bQueryDash ⟨n0, n1, n2, n3, n4, n5, n6, n7, n8, n9, c10⟩ rest2 rfl
                        · exact bQueryInv ⟨n0, n1, n2, n3, n4, n5, n6, n7, n8, n9, c10⟩
                      · have n10 : ch ≠ '?' := by simpa using c10
                        rw [if_neg c10]
                        by_cases c11 : ch = '.'
                        · rw [if_pos c11]
                          exact bPeriod ⟨n0, n1, n2, n3, n4, n5, n6, n7, n8, n9, n10, c11⟩
                        · have n11 : ch ≠ '.' := by simpa using c11
                          rw [if_neg c11]
                          by_cases c12 : ch = ','
                          · rw [if_pos c12]
                            exact bComma ⟨n0, n1, n2, n3, n4, n5, n6, n7, n8, n9, n10, n11, c12⟩
                          · have n12 : ch ≠ ',' := by simpa using c12
                            rw [if_neg c12]
                            by_cases c13 : ch = '('
                            · rw [if_pos c13]
                              exact bOpen ⟨n0, n1, n2, n3, n4, n5, n6, n7, n8, n9, n10, n11, n12, c13⟩
                            · have n13 : ch ≠ '(' := by simpa using c13
                              rw [if_neg c13]
                              by_cases c14 : ch = ')'
                              · rw [if_pos c14]
                                exact bClose ⟨n0, n1, n2, n3, n4, n5, n6, n7, n8, n9, n10, n11, n12, n13, c14⟩
                              · have n14 : ch ≠ ')' := by simpa using c14
                                rw [if_neg c14]
                                by_cases c15 : isDigitP ch = true
                                · rw [if_pos c15]
                                  exact bDigit ⟨n0, n1, n2, n3, n4, n5, n6, n7, n8, n9, n10, n11, n12, n13, n14, c15⟩ _ _ _ _ rfl
                                · have n15 : isDigitP ch = false := by simpa using c15
                                  rw [if_neg c15]
                                  by_cases c16 : isLowerP ch = true
                                  · rw [if_pos c16]
                                    exact bLower ⟨n0, n1, n2, n3, n4, n5, n6, n7, n8, n9, n10, n11, n12, n13, n14, n15, c16⟩ _ _ _ _ rfl
                                  · have n16 : isLowerP ch = false := by simpa using c16
                                    rw [if_neg c16]
                                    by_cases c17 : (isUpperP ch || ch = '_') = true
                                    · rw [if_pos c17]
                                      exact bUpper ⟨n0, n1, n2, n3, n4, n5, n6, n7, n8, n9, n10, n11, n12, n13, n14, n15, n16, c17⟩ _ _ _ _ rfl
                                    · have n17 : (isUpperP ch || ch = '_') = false := by simpa using c17
                                      rw [if_neg c17]
                                      exact bInvalid ⟨n0, n1, n2, n3, n4, n5, n6, n7, n8, n9, n10, n11, n12, n13, n14, n15, n16, n17⟩

/-- A `skip` outcome of `scanStep` (whitespace) consumes one character. -/
theorem scanStep_skip_length {cs : List Char} {l c : Int} {cs2 : List Char}
    {l2 c2 : Int} (h : scanStep cs l c = .skip cs2 l2 c2) :
    cs2.length < cs.length := by
  match cs with
  | [] => exact ScanStep.noConfusion h
  | ch :: rest =>
    revert h
    apply scanStep_elim
      (fun s => s = ScanStep.skip cs2 l2 c2 → cs2.length < (ch :: rest).length)
      ch rest l c
    all_goals intros
    all_goals rename_i h
    all_goals try exact ScanStep.noConfusion h
    injection h with e1 e2 e3
    subst e1
    simp only [List.length_cons]
    omega

/-- A `tok` outcome of `scanStep` consumes at least one character. -/
theorem scanStep_tok_length {cs : List Char} {l c : Int} {lex : Lexeme}
    {cs2 : List Char} {l2 c2 : Int}
    (h : scanStep cs l c = .tok lex cs2 l2 c2) : cs2.length < cs.length := by
  match cs with
  | [] => exact ScanStep.noConfusion h
  | ch :: rest =>
    revert h
    apply scanStep_elim
      (fun s => s = ScanStep.tok lex cs2 l2 c2 → cs2.length < (ch :: rest).length)
      ch rest l c
    all_goals intros
    all_goals rename_i h
    all_goals try exact ScanStep.noConfusion h
    all_goals injection h with e1 e2 e3 e4
    all_goals subst e2
    all_goals simp only [List.length_cons]
    all_goals try omega
    -- quoted atom: stringLoop consumed at least the closing quote
    · rename_i heq
      simp only [tokenize_string] at heq
      have hl := stringLoop_rest_length _ _ _ _ _ _ _ _ _ heq
      omega
    -- colon-dash: two characters consumed
    · rename_i hr
      subst hr
      simp only [List.length_cons]
      omega
    -- query: two characters consumed
    · rename_i hr
      subst hr
      simp only [List.length_cons]
      omega
    -- numeral
    · rename_i heq
      have hl := tokenize_numeral_rest_length ch rest (nextLine ch l) (nextCol ch c)
      rw [heq] at hl
      simp only at hl
      omega
    -- atom
    · rename_i heq
      have hl := tokenize_atom_rest_length ch rest (nextLine ch l) (nextCol ch c)
      rw [heq] at hl
      simp only at hl
      omega
    -- variable
    · rename_i heq
      have hl := tokenize_variable_rest_length ch rest (nextLine ch l) (nextCol ch c)
      rw [heq] at hl
      simp only at hl
      omega

/-- An `eof` outcome of `scanStep` only arises on empty input, and carries
the `EOF` lexeme at the current position. -/
theorem scanStep_eof {cs : List Char} {l c : Int} {lex : Lexeme}
    (h : scanStep cs l c = .eof lex) :
    cs = [] ∧ lex = ⟨.EOF, "EOF", l, c⟩ := by
  match cs with
  | [] =>
    simp only [scanStep] at h
    injection h with h1
    exact ⟨rfl, h1.symm⟩
  | ch :: rest =>
    revert h
    apply scanStep_elim
      (fun s => s = ScanStep.eof lex →
        ch :: rest = [] ∧ lex = ⟨.EOF, "EOF", l, c⟩)
      ch rest l c
    all_goals intros
    all_goals rename_i h
    all_goals exact ScanStep.noConfusion h

/-- The lexeme produced by `tokenize_numeral` is a `NUMERAL`. -/
theorem tokenize_numeral_kind (ch : Char) (rest : List Char) (l c : Int) :
    (tokenize_numeral ch rest l c).1.token_type = .NUMERAL := by
  simp only [tokenize_numeral]

/-- The lexeme produced by `tokenize_atom` is an `ATOM`. -/
theorem tokenize_atom_kind (ch : Char) (rest : List Char) (l c : Int) :
    (tokenize_atom ch rest l c).1.token_type = .ATOM := by
  simp only [tokenize_atom]

/-- The lexeme produced by `tokenize_variable` is a `VARIABLE`. -/
theorem tokenize_variable_kind (ch : Char) (rest : List Char) (l c : Int) :
    (tokenize_variable ch rest l c).1.token_type = .VARIABLE := by
  simp only [tokenize_variable]

/-- No `tok` outcome of `scanStep` carries an `EOF`-kind lexeme: `EOF` is
only ever produced by the end-of-input branch. -/
theorem scanStep_tok_not_eof {cs : List Char} {l c : Int} {lex : Lexeme}
    {cs2 : List Char} {l2 c2 : Int}
    (h : scanStep cs l c = .tok lex cs2 l2 c2) : lex.token_type ≠ .EOF := by
  match cs with
  | [] => exact ScanStep.noConfusion h
  | ch :: rest =>
    revert h
    apply scanStep_elim
      (fun s => s = ScanStep.tok lex cs2 l2 c2 → lex.token_type ≠ .EOF)
      ch rest l c
    all_goals intros
    all_goals rename_i h
    all_goals try exact ScanStep.noConfusion h
    all_goals injection h with e1 e2 e3 e4
    all_goals subst e1
    all_goals try exact fun hk => TokenType.noConfusion hk
    -- quoted atom: ATOM kind
    · rename_i heq
      simp only [tokenize_string] at heq
      have hk := stringLoop_ok_shape _ _ _ _ _ _ _ _ _ heq
      rw [hk.1]
      exact fun hk2 => TokenType.noConfusion hk2
    -- numeral
    · rename_i heq
      have hk := tokenize_numeral_kind ch rest (nextLine ch l) (nextCol ch c)
      rw [heq] at hk
      simp only at hk
      rw [hk]
      exact fun hk2 => TokenType.noConfusion hk2
    -- atom
    · rename_i heq
      have hk := tokenize_atom_kind ch rest (nextLine ch l) (nextCol ch c)
      rw [heq] at hk
      simp only at hk
      rw [hk]
      exact fun hk2 => TokenType.noConfusion hk2
    -- variable
    · rename_i heq
      have hk := tokenize_variable_kind ch rest (nextLine ch l) (nextCol ch c)
      rw [heq] at hk
      simp only at hk
      rw [hk]
      exact fun hk2 => TokenType.noConfusion hk2

/-- Structure of a full scanner run (with sufficient fuel): the generator
yields a (possibly empty) prefix of non-`EOF` lexemes and then either ends
with exactly one `EOF` lexeme, or aborts with the fatal unterminated-quote
error and yields no `EOF` lexeme at all. -/
theorem lexAux_shape : ∀ (f : Nat) (cs : List Char) (l c : Int),
    cs.length < f →
    (∃ (pre : List Lexeme) (lex : Lexeme),
        lexAux f cs l c = pre.map Except.ok ++ [Except.ok lex]
        ∧ lex.token_type = TokenType.EOF
        ∧ ∀ x ∈ pre, x.token_type ≠ TokenType.EOF)
    ∨ (∃ (pre : List Lexeme) (m : String),
        lexAux f cs l c = pre.map Except.ok ++ [Except.error m]
        ∧ ∀ x ∈ pre, x.token_type ≠ TokenType.EOF) := by
  intro f
  induction f with
  | zero => intro cs l c hf; omega
  | succ f ih =>
    intro cs l c hf
    rcases hstep : scanStep cs l c with ⟨lex, cs2, l2, c2⟩ | ⟨cs2, l2, c2⟩ | lex | m
    · have hlen := scanStep_tok_length hstep
      have hne := scanStep_tok_not_eof hstep
      rcases ih cs2 l2 c2 (by omega) with ⟨pre, lexE, he, hk, hpre⟩ | ⟨pre, m, he, hpre⟩
      · left
        refine ⟨lex :: pre, lexE, ?_, hk, ?_⟩
        · simp only [lexAux, hstep, he, List.map_cons, List.cons_append]
        · intro x hx
          rcases List.mem_cons.mp hx with rfl | hx2
          · exact hne
          · exact hpre x hx2
      · right
        refine ⟨lex :: pre, m, ?_, ?_⟩
        · simp only [lexAux, hstep, he, List.map_cons, List.cons_append]
        · intro x hx
          rcases List.mem_cons.mp hx with rfl | hx2
          · exact hne
          · exact hpre x hx2
    · have hlen := scanStep_skip_length hstep
      have := ih cs2 l2 c2 (by omega)
      simpa only [lexAux, hstep] using this
    · obtain ⟨-, rfl⟩ := scanStep_eof hstep
      left
      exact ⟨[], ⟨.EOF, "EOF", l, c⟩, by simp [lexAux, hstep], rfl, by simp⟩
    · right
      exact ⟨[], m, by simp [lexAux, hstep], by simp⟩

/-- A `false` boolean equation refutes the corresponding `true` one. -/
theorem bool_ne_true {b : Bool} (h : b = false) : ¬(b = true) := by simp [h]

/-- A digit is not whitespace. -/
theorem space_false_of_digit {ch : Char} (h : isDigitP ch = true) :
    isSpaceP ch = false := by
  cases hs : isSpaceP ch
  · rfl
  · exfalso
    have hmem : ch = ' ' ∨ ch = Char.ofNat 9 ∨ ch = Char.ofNat 10
        ∨ ch = Char.ofNat 11 ∨ ch = Char.ofNat 12 ∨ ch = Char.ofNat 13 := by
      simpa [isSpaceP] using hs
    rcases hmem with rfl | rfl | rfl | rfl | rfl | rfl
    all_goals exact absurd h (by decide)

/-- Scanning a digit-initiated lexeme: the `NUMERAL` token's text is the
maximal digit run starting at that character, its position is the first
digit's position `c + 1`, and scanning resumes right after the run. -/
theorem scanStep_digit {ch : Char} (rest : List Char) (l c : Int)
    (h : isDigitP ch = true) :
    scanStep (ch :: rest) l c =
      .tok ⟨.NUMERAL, String.singleton ch ++ String.mk (rest.takeWhile isDigitP),
          l, c + 1⟩
        (rest.dropWhile isDigitP) l (c + 1 + (rest.takeWhile isDigitP).length) := by
  have hnl : ch ≠ Char.ofNat 10 := fun hc => absurd (hc ▸ h) (by decide)
  have hdig : ∀ x, isDigitP x = true → x ≠ Char.ofNat 10 :=
    fun x hx hc => absurd (hc ▸ hx) (by decide)
  simp only [scanStep]
  rw [if_neg (bool_ne_true (space_false_of_digit h))]
  rw [if_neg (show ¬(ch = '+') from fun hc => absurd (hc ▸ h) (by decide))]
  rw [if_neg (show ¬(ch = '-') from fun hc => absurd (hc ▸ h) (by decide))]
  rw [if_neg (show ¬(ch = '*') from fun hc => absurd (hc ▸ h) (by decide))]
  rw [if_neg (show ¬(ch = '/') from fun hc => absurd (hc ▸ h) (by decide))]
  rw [if_neg (show ¬(ch = Char.ofNat 92) from fun hc => absurd (hc ▸ h) (by decide))]
  rw [if_neg (show ¬(ch = '^') from fun hc => absurd (hc ▸ h) (by decide))]
  rw [if_neg (show ¬(ch = '~') from fun hc => absurd (hc ▸ h) (by decide))]
  rw [if_neg (show ¬(ch = quoteC) from fun hc => absurd (hc ▸ h) (by decide))]
  rw [if_neg (show ¬(ch = ':') from fun hc => absurd (hc ▸ h) (by decide))]
  rw [if_neg (show ¬(ch = '?') from fun hc => absurd (hc ▸ h) (by decide))]
  rw [if_neg (show ¬(ch = '.') from fun hc => absurd (hc ▸ h) (by decide))]
  rw [if_neg (show ¬(ch = ',') from fun hc => absurd (hc ▸ h) (by decide))]
  rw [if_neg (show ¬(ch = '(') from fun hc => absurd (hc ▸ h) (by decide))]
  rw [if_neg (show ¬(ch = ')') from fun hc => absurd (hc ▸ h) (by decide))]
  rw [if_pos h]
  simp only [tokenize_numeral, spanWhile_eq isDigitP hdig]
  simp [nextLine, nextCol, hnl]

/-- A lowercase letter is not whitespace. -/
theorem space_false_of_lower {ch : Char} (h : isLowerP ch = true) :
    isSpaceP ch = false := by
  cases hs : isSpaceP ch
  · rfl
  · exfalso
    have hmem : ch = ' ' ∨ ch = Char.ofNat 9 ∨ ch = Char.ofNat 10
        ∨ ch = Char.ofNat 11 ∨ ch = Char.ofNat 12 ∨ ch = Char.ofNat 13 := by
      simpa [isSpaceP] using hs
    rcases hmem with rfl | rfl | rfl | rfl | rfl | rfl
    all_goals exact absurd h (by decide)

/-- An uppercase letter or underscore is not whitespace. -/
theorem space_false_of_upperUnd {ch : Char} (h : (isUpperP ch || ch = '_') = true) :
    isSpaceP ch = false := by
  cases hs : isSpaceP ch
  · rfl
  · exfalso
    have hmem : ch = ' ' ∨ ch = Char.ofNat 9 ∨ ch = Char.ofNat 10
        ∨ ch = Char.ofNat 11 ∨ ch = Char.ofNat 12 ∨ ch = Char.ofNat 13 := by
      simpa [isSpaceP] using hs
    rcases hmem with rfl | rfl | rfl | rfl | rfl | rfl
    all_goals exact absurd h (by decide)

/-- A lowercase letter is not a digit. -/
theorem digit_false_of_lower {ch : Char} (h : isLowerP ch = true) :
    isDigitP ch = false := by
  simp only [isLowerP, Char.isLower, Bool.and_eq_true, decide_eq_true_eq] at h
  cases hd : isDigitP ch
  · rfl
  · exfalso
    simp only [isDigitP, Char.isDigit, Bool.and_eq_true, decide_eq_true_eq] at hd
    exact absurd (UInt32.le_trans h.1 hd.2) (by decide)

/-- An uppercase letter or underscore is not a digit. -/
theorem digit_false_of_upperUnd {ch : Char} (h : (isUpperP ch || ch = '_') = true) :
    isDigitP ch = false := by
  have h2 : isUpperP ch = true ∨ ch = '_' := by simpa using h
  rcases h2 with hu | rfl
  · simp only [isUpperP, Char.isUpper, Bool.and_eq_true, decide_eq_true_eq] at hu
    cases hd : isDigitP ch
    · rfl
    · exfalso
      simp only [isDigitP, Char.isDigit, Bool.and_eq_true, decide_eq_true_eq] at hd
      exact absurd (UInt32.le_trans hu.1 hd.2) (by decide)
  · decide

/-- An uppercase letter or underscore is not a lowercase letter. -/
theorem lower_false_of_upperUnd {ch : Char} (h : (isUpperP ch || ch = '_') = true) :
    isLowerP ch = false := by
  have h2 : isUpperP ch = true ∨ ch = '_' := by simpa using h
  rcases h2 with hu | rfl
  · simp only [isUpperP, Char.isUpper, Bool.and_eq_true, decide_eq_true_eq] at hu
    cases hd : isLowerP ch
    · rfl
    · exfalso
      simp only [isLowerP, Char.isLower, Bool.and_eq_true, decide_eq_true_eq] at hd
      exact absurd (UInt32.le_trans hd.1 hu.2) (by decide)
  · decide

/-- Scanning a lowercase-initiated lexeme: the `ATOM` token's text is the
maximal run of letters, digits and underscores starting there, its position
is the first character's position `c + 1`. -/
theorem scanStep_lower {ch : Char} (rest : List Char) (l c : Int)
    (h : isLowerP ch = true) :
    scanStep (ch :: rest) l c =
      .tok ⟨.ATOM, String.singleton ch ++ String.mk (rest.takeWhile isIdentP),
          l, c + 1⟩
        (rest.dropWhile isIdentP) l (c + 1 + (rest.takeWhile isIdentP).length) := by
  have hnl : ch ≠ Char.ofNat 10 := fun hc => absurd (hc ▸ h) (by decide)
  have hid : ∀ x, isIdentP x = true → x ≠ Char.ofNat 10 :=
    fun x hx hc => absurd (hc ▸ hx) (by decide)
  simp only [scanStep]
  rw [if_neg (bool_ne_true (space_false_of_lower h))]
  rw [if_neg (show ¬(ch = '+') from fun hc => absurd (hc ▸ h) (by decide))]
  rw [if_neg (show ¬(ch = '-') from fun hc => absurd (hc ▸ h) (by decide))]
  rw [if_neg (show ¬(ch = '*') from fun hc => absurd (hc ▸ h) (by decide))]
  rw [if_neg (show ¬(ch = '/') from fun hc => absurd (hc ▸ h) (by decide))]
  rw [if_neg (show ¬(ch = Char.ofNat 92) from fun hc => absurd (hc ▸ h) (by decide))]
  rw [if_neg (show ¬(ch = '^') from fun hc => absurd (hc ▸ h) (by decide))]
  rw [if_neg (show ¬(ch = '~') from fun hc => absurd (hc ▸ h) (by decide))]
  rw [if_neg (show ¬(ch = quoteC) from fun hc => absurd (hc ▸ h) (by decide))]
  rw [if_neg (show ¬(ch = ':') from fun hc => absurd (hc ▸ h) (by decide))]
  rw [if_neg (show ¬(ch = '?') from fun hc => absurd (hc ▸ h) (by decide))]
  rw [if_neg (show ¬(ch = '.') from fun hc => absurd (hc ▸ h) (by decide))]
  rw [if_neg (show ¬(ch = ',') from fun hc => absurd (hc ▸ h) (by decide))]
  rw [if_neg (show ¬(ch = '(') from fun hc => absurd (hc ▸ h) (by decide))]
  rw [if_neg (show ¬(ch = ')') from fun hc => absurd (hc ▸ h) (by decide))]
  rw [if_neg (bool_ne_true (digit_false_of_lower h))]
  rw [if_pos h]
  simp only [tokenize_atom, spanWhile_eq isIdentP hid]
  simp [nextLine, nextCol, hnl]

/-- Scanning an uppercase- or underscore-initiated lexeme: the `VARIABLE`
token's text is the maximal run of letters, digits and underscores starting
there (the bare underscore included), its position is the first character's
position `c + 1`. -/
theorem scanStep_upper {ch : Char} (rest : List Char) (l c : Int)
    (h : (isUpperP ch || ch = '_') = true) :
    scanStep (ch :: rest) l c =
      .tok ⟨.VARIABLE, String.singleton ch ++ String.mk (rest.takeWhile isIdentP),
          l, c + 1⟩
        (rest.dropWhile isIdentP) l (c + 1 + (rest.takeWhile isIdentP).length) := by
  have hnl : ch ≠ Char.ofNat 10 := fun hc => absurd (hc ▸ h) (by decide)
  have hid : ∀ x, isIdentP x = true → x ≠ Char.ofNat 10 :=
    fun x hx hc => absurd (hc ▸ hx) (by decide)
  simp only [scanStep]
  rw [if_neg (bool_ne_true (space_false_of_upperUnd h))]
  rw [if_neg (show ¬(ch = '+') from fun hc => absurd (hc ▸ h) (by decide))]
  rw [if_neg (show ¬(ch = '-') from fun hc => absurd (hc ▸ h) (by decide))]
  rw [if_neg (show ¬(ch = '*') from fun hc => absurd (hc ▸ h) (by decide))]
  rw [if_neg (show ¬(ch = '/') from fun hc => absurd (hc ▸ h) (by decide))]
  rw [if_neg (show ¬(ch = Char.ofNat 92) from fun hc => absurd (hc ▸ h) (by decide))]
  rw [if_neg (show ¬(ch = '^') from fun hc => absurd (hc ▸ h) (by decide))]
  rw [if_neg (show ¬(ch = '~') from fun hc => absurd (hc ▸ h) (by decide))]
  rw [if_neg (show ¬(ch = quoteC) from fun hc => absurd (hc ▸ h) (by decide))]
  rw [if_neg (show ¬(ch = ':') from fun hc => absurd (hc ▸ h) (by decide))]
  rw [if_neg (show ¬(ch = '?') from fun hc => absurd (hc ▸ h) (by decide))]
  rw [if_neg (show ¬(ch = '.') from fun hc => absurd (hc ▸ h) (by decide))]
  rw [if_neg (show ¬(ch = ',') from fun hc => absurd (hc ▸ h) (by decide))]
  rw [if_neg (show ¬(ch = '(') from fun hc => absurd (hc ▸ h) (by decide))]
  rw [if_neg (show ¬(ch = ')') from fun hc => absurd (hc ▸ h) (by decide))]
  rw [if_neg (bool_ne_true (digit_false_of_upperUnd h))]
  rw [if_neg (bool_ne_true (lower_false_of_upperUnd h))]
  rw [if_pos h]
  simp only [tokenize_variable, spanWhile_eq isIdentP hid]
  simp [nextLine, nextCol, hnl]

/-- Scanning `:-`: one `COLON_DASH` token consuming both characters, its
position that of the `:` (the yield happens before the `-` is consumed). -/
theorem scanStep_colon_dash (rest : List Char) (l c : Int) :
    scanStep (':' :: '-' :: rest) l c =
      .tok ⟨.COLON_DASH, ":-", l, c + 1⟩ rest l (c + 1 + 1) := rfl

/-- Scanning `?-`: one `QUERY` token consuming both characters, its position
that of the `?`. -/
theorem scanStep_query_dash (rest : List Char) (l c : Int) :
    scanStep ('?' :: '-' :: rest) l c =
      .tok ⟨.QUERY, "?-", l, c + 1⟩ rest l (c + 1 + 1) := rfl

/-- Scanning a single-character operator (representative case `+`): the
token's position is the character's own position `c + 1`. -/
theorem scanStep_plus (rest : List Char) (l c : Int) :
    scanStep ('+' :: rest) l c = .tok ⟨.PLUS, "+", l, c + 1⟩ rest l (c + 1) := rfl

/-- Scanning a quoted atom that closes: the yielded `ATOM` lexeme carries
`start_position`, the opening quote's position `c + 1`. -/
theorem scanStep_quote {rest : List Char} {l c : Int} {lex : Lexeme}
    {rest2 : List Char} {l2 c2 : Int}
    (heq : stringLoop rest l (c + 1) "" (c + 1) = .ok (lex, rest2, l2, c2)) :
    scanStep (quoteC :: rest) l c = .tok lex rest2 l2 c2
      ∧ lex.char_position = c + 1 ∧ lex.token_type = .ATOM := by
  have h0 : scanStep (quoteC :: rest) l c =
      (match tokenize_string rest l (c + 1) with
        | Except.error m => ScanStep.fatal m
        | Except.ok (lex, rest2, l2, c2) => ScanStep.tok lex rest2 l2 c2) := rfl
  have hs := stringLoop_ok_shape _ _ _ _ _ _ _ _ _ heq
  refine ⟨?_, hs.2, hs.1⟩
  rw [h0]
  simp only [tokenize_string]
  rw [heq]

/-- `measureP` ignores the diagnostics list. -/
theorem measureP_set_errors (st : PState) (x : List String) :
    measureP { st with errors := x } = measureP st := rfl

/-- Joint specification of `advance`, `error` and `recover`: with fuel at
least linear in the measure each returns (never exhausts fuel), satisfies
`Post`, and in addition: `advance` on an exhausted generator fabricates
`eofNeg` and otherwise strictly decreases the measure; `error`'s result
diagnostics extend the input's by the formatted message (plus whatever
recovery appended); `error` and `recover` return normally only with the
lookahead on a synchronization token. -/
theorem suffA : ∀ f : Nat,
    (∀ st : PState, 3 * measureP st + 1 ≤ f →
      ∃ st1 e, advanceF f st = some (st1, e) ∧ Post st st1 e
        ∧ (st.gen = [] → st1 = { st with current := eofNeg } ∧ e = none)
        ∧ (st.gen ≠ [] → measureP st1 < measureP st))
    ∧ (∀ (msg : String) (st : PState), 3 * measureP st + 3 ≤ f →
      ∃ st1 e, errorF f msg st = some (st1, e) ∧ Post st st1 e
        ∧ (∃ δ, st1.errors = st.errors ++ (fmtErr msg st.current :: δ))
        ∧ (e = none → st1.current.token_type ∈ syncKinds))
    ∧ (∀ st : PState, 3 * measureP st + 2 ≤ f →
      ∃ st1 e, recoverF f st = some (st1, e) ∧ Post st st1 e
        ∧ (e = none → st1.current.token_type ∈ syncKinds)) := by
  intro f
  induction f using Nat.strong_induction_on with
  | _ f IH => ?_
  refine ⟨?_, ?_, ?_⟩
  · -- advance
    intro st hf
    obtain ⟨gen, cur, errs⟩ := st
    match f, hf with
    | f + 1, hf =>
      cases gen with
      | nil =>
        refine ⟨⟨[], eofNeg, errs⟩, none, rfl, ?_, fun _ => ⟨rfl, rfl⟩,
          fun hne => absurd rfl hne⟩
        exact ⟨by simp [measureP, eofNeg], by simp, ⟨[], by simp⟩⟩
      | cons entry rest =>
        cases entry with
        | error m =>
          refine ⟨⟨rest, cur, errs⟩, some m, rfl, ?_,
            fun hnil => by simp at hnil, fun _ => ?_⟩
          · refine ⟨?_, fun _ => ?_, ⟨[], by simp⟩⟩
            · simp only [measureP, List.length_cons]
              split <;> omega
            · simp only [measureP, List.length_cons]
              split <;> omega
          · simp only [measureP, List.length_cons]
            split <;> omega
        | ok lex =>
          by_cases hinv : lex.token_type = TokenType.INVALID
          · -- invalid token: error() runs on the freshly advanced state
            have hμ1 : measureP ⟨rest, lex, errs⟩ ≤ 2 * rest.length + 1 := by
              simp only [measureP]
              split <;> omega
            have hμ0 : 2 * rest.length + 2 ≤ measureP ⟨Except.ok lex :: rest, cur, errs⟩ := by
              simp only [measureP, List.length_cons]
              split <;> omega
            obtain ⟨st2, e, he, hpost, hδ, hsync⟩ :=
              (IH f (Nat.lt_succ_self f)).2.1
                ("Invalid token " ++ quoteS ++ lex.value)
                ⟨rest, lex, errs⟩ (by omega)
            obtain ⟨hle, hlt, δ2, hδ2⟩ := hpost
            refine ⟨st2, e, ?_, ?_, fun hnil => by simp at hnil, fun _ => by omega⟩
            · show advanceF (f + 1) ⟨Except.ok lex :: rest, cur, errs⟩ = some (st2, e)
              simp only [advanceF]
              rw [if_pos hinv]
              exact he
            · obtain ⟨δ3, hδ3⟩ := hδ
              exact ⟨by omega, fun _ => by omega,
                ⟨fmtErr ("Invalid token " ++ quoteS ++ lex.value) lex :: δ3, hδ3⟩⟩
          · refine ⟨⟨rest, lex, errs⟩, none, ?_, ?_,
              fun hnil => by simp at hnil, fun _ => ?_⟩
            · show advanceF (f + 1) ⟨Except.ok lex :: rest, cur, errs⟩ = some _
              simp only [advanceF]
              rw [if_neg hinv]
            · refine ⟨?_, by simp, ⟨[], by simp⟩⟩
              simp only [measureP, List.length_cons]
              split <;> split <;> omega
            · simp only [measureP, List.length_cons]
              split <;> split <;> omega
  · -- error
    intro msg st hf
    match f, hf with
    | f + 1, hf =>
      obtain ⟨st1, e, he, hpost, hsync⟩ :=
        (IH f (Nat.lt_succ_self f)).2.2
          { st with errors := st.errors ++ [fmtErr msg st.current] }
          (by rw [measureP_set_errors]; omega)
      obtain ⟨hle, hlt, δ, hδ⟩ := hpost
      rw [measureP_set_errors] at hle hlt
      refine ⟨st1, e, by simpa [errorF] using he, ⟨hle, hlt, ?_⟩, ?_, hsync⟩
      · exact ⟨fmtErr msg st.current :: δ, by simp at hδ; simp [hδ]⟩
      · exact ⟨δ, by simp at hδ; simp [hδ]⟩
  · -- recover
    intro st hf
    match f, hf with
    | f + 1, hf =>
      by_cases hsync : st.current.token_type ∈ syncKinds
          ∨ st.current.token_type = TokenType.EOF
      · refine ⟨st, none, by simp [recoverF, hsync], ?_, ?_⟩
        · exact ⟨le_refl _, by simp, ⟨[], by simp⟩⟩
        · intro _
          rcases hsync with h | h
          · exact h
          · rw [h]; decide
      · have hne : st.current.token_type ≠ TokenType.EOF := fun h => hsync (Or.inr h)
        have hμ : measureP st = 2 * st.gen.length + 1 := by
          simp [measureP, hne]
        obtain ⟨stA, eA, heA, hpostA, hnilA, hconsA⟩ :=
          (IH f (Nat.lt_succ_self f)).1 st (by omega)
        have hμA : measureP stA < measureP st := by
          by_cases hg : st.gen = []
          · obtain ⟨rfl, -⟩ := hnilA hg
            have : measureP { st with current := eofNeg } = 0 := by
              simp [measureP, hg, eofNeg]
            omega
          · exact hconsA hg
        cases eA with
        | some e =>
          refine ⟨stA, some e, ?_, hpostA, fun hcontra => Option.noConfusion hcontra⟩
          simp only [recoverF]
          rw [if_neg hsync, heA]
          simp [bindP]
        | none =>
          obtain ⟨st2, e2, he2, hpost2, hsync2⟩ :=
            (IH f (Nat.lt_succ_self f)).2.2 stA (by omega)
          obtain ⟨hle, hlt, δ, hδ⟩ := hpost2
          obtain ⟨hleA, -, δA, hδA⟩ := hpostA
          refine ⟨st2, e2, ?_, ?_, hsync2⟩
          · simp only [recoverF]
            rw [if_neg hsync, heA]
            simp only [bindP]
            exact he2
          · refine ⟨by omega, fun _ => by omega, ?_⟩
            exact ⟨δA ++ δ, by rw [hδ, hδA, List.append_assoc]⟩

/-- A scanner run never produces more entries than characters plus one. -/
theorem lexAux_length_le : ∀ (f : Nat) (cs : List Char) (l c : Int),
    (lexAux f cs l c).length ≤ cs.length + 1 := by
  intro f
  induction f with
  | zero => intro cs l c; simp [lexAux]
  | succ f ih =>
    intro cs l c
    rcases hstep : scanStep cs l c with ⟨lex, cs2, l2, c2⟩ | ⟨cs2, l2, c2⟩ | lex | m
    · have := scanStep_tok_length hstep
      have := ih cs2 l2 c2
      simp only [lexAux, hstep, List.length_cons]
      omega
    · have := scanStep_skip_length hstep
      have := ih cs2 l2 c2
      simp only [lexAux, hstep]
      omega
    · simp [lexAux, hstep]
    · simp [lexAux, hstep]

/-- `Post` composes along normal returns. -/
theorem post_trans {st0 st1 st2 : PState} {e : Option String}
    (h1 : Post st0 st1 none) (h2 : Post st1 st2 e) : Post st0 st2 e := by
  obtain ⟨ha, -, δ1, hδ1⟩ := h1
  obtain ⟨hb, hc, δ2, hδ2⟩ := h2
  refine ⟨by omega, fun he => ?_, ⟨δ1 ++ δ2, by rw [hδ2, hδ1, List.append_assoc]⟩⟩
  have := hc he
  omega

/-- `Post` composes after any strictly measure-decreasing prefix, whatever
the final exception status. -/
theorem post_handler {st0 st1 st2 : PState} {e2 : Option String}
    (hlt : measureP st1 < measureP st0)
    (hδ : ∃ δ, st1.errors = st0.errors ++ δ)
    (h2 : Post st1 st2 e2) : Post st0 st2 e2 := by
  obtain ⟨δ1, hδ1⟩ := hδ
  obtain ⟨hb, -, δ2, hδ2⟩ := h2
  exact ⟨by omega, fun _ => by omega,
    ⟨δ1 ++ δ2, by rw [hδ2, hδ1, List.append_assoc]⟩⟩

/-- `advance` on a non-`EOF` lookahead always strictly decreases the
measure: it either consumes a generator entry or fabricates `eofNeg`. -/
theorem advance_step (f : Nat) (st : PState)
    (hne : st.current.token_type ≠ TokenType.EOF)
    (hf : 3 * measureP st + 1 ≤ f) :
    ∃ st1 e, advanceF f st = some (st1, e) ∧ Post st st1 e
      ∧ measureP st1 < measureP st := by
  obtain ⟨st1, e, he, hp, hnil, hcons⟩ := (suffA f).1 st hf
  refine ⟨st1, e, he, hp, ?_⟩
  by_cases hg : st.gen = []
  · obtain ⟨rfl, -⟩ := hnil hg
    have h1 : measureP { st with current := eofNeg } = 0 := by
      simp [measureP, hg, eofNeg]
    have h2 : measureP st = 1 := by simp [measureP, hg, hne]
    omega
  · exact hcons hg

/-- The `except` handlers always run on a state whose measure strictly
decreased (an exception implies a consumed `Except.error` entry), so the
`error` call they make succeeds and the whole block satisfies `Post`. -/
theorem catch_error_comp (f : Nat) (pre : String) {st0 stX : PState} {e : String}
    (hp : Post st0 stX (some e)) (hf : 3 * measureP st0 ≤ f) :
    ∃ st2 e2, errorF f (pre ++ e) stX = some (st2, e2) ∧ Post st0 st2 e2 := by
  have hlt : measureP stX < measureP st0 := hp.2.1 (by simp)
  obtain ⟨st2, e2, he2, hp2, -, -⟩ := (suffA f).2.1 (pre ++ e) stX (by omega)
  exact ⟨st2, e2, he2, post_handler hlt hp.2.2 hp2⟩

/-- `match` (the parser's `matchTok`) with linear fuel returns and satisfies
`Post`. -/
theorem matchTok_suff (f : Nat) (expected : TokenType) (st : PState)
    (hf : 3 * measureP st + 4 ≤ f) :
    ∃ st1 e, matchTok f expected st = some (st1, e) ∧ Post st st1 e := by
  simp only [matchTok]
  by_cases hm : st.current.token_type = expected
  · rw [if_pos hm]
    obtain ⟨st1, e, he, hp, -, -⟩ := (suffA f).1 st (by omega)
    exact ⟨st1, e, he, hp⟩
  · rw [if_neg hm]
    obtain ⟨st1, e, he, hp, -, -⟩ := (suffA f).2.1 _ st (by omega)
    exact ⟨st1, e, he, hp⟩

/-- Joint sufficiency for `term`, `term_list` and the `except` handler of
`term_list`'s loop: with fuel linear in the measure each returns and
satisfies `Post`. -/
theorem suffB : ∀ f : Nat,
    (∀ st : PState, 3 * measureP st + 4 ≤ f →
      ∃ st1 e, termF f st = some (st1, e) ∧ Post st st1 e)
    ∧ (∀ st : PState, 3 * measureP st + 5 ≤ f →
      ∃ st1 e, term_listF f st = some (st1, e) ∧ Post st st1 e)
    ∧ (∀ (e0 : String) (st : PState), 3 * measureP st + 6 ≤ f →
      ∃ st1 e, term_list_handlerF f e0 st = some (st1, e) ∧ Post st st1 e) := by
  intro f
  induction f using Nat.strong_induction_on with
  | _ f IH => ?_
  refine ⟨?_, ?_, ?_⟩
  · -- term
    intro st hf
    match f, hf with
    | f + 1, hf =>
      simp only [termF]
      by_cases hatom : st.current.token_type = TokenType.ATOM
      · rw [if_pos hatom]
        obtain ⟨st1, e1, he1, hp1, hs1⟩ :=
          advance_step f st (by simp [hatom]) (by omega)
        rw [he1]
        cases e1 with
        | some e =>
          simp only [bindP, catchP]
          exact catch_error_comp f "Error in term: " hp1 (by omega)
        | none =>
          simp only [bindP]
          by_cases hop : st1.current.token_type = TokenType.OPEN_PAREN
          · rw [if_pos hop]
            obtain ⟨st2, e2, he2, hp2, hs2⟩ :=
              advance_step f st1 (by simp [hop]) (by omega)
            rw [he2]
            cases e2 with
            | some e =>
              simp only [bindP, catchP]
              exact catch_error_comp f "Error in term: " (post_trans hp1 hp2) (by omega)
            | none =>
              simp only [bindP]
              obtain ⟨st3, e3, he3, hp3⟩ :=
                (IH f (Nat.lt_succ_self f)).2.1 st2 (by omega)
              rw [he3]
              cases e3 with
              | some e =>
                simp only [bindP, catchP]
                exact catch_error_comp f "Error in term: "
                  (post_trans (post_trans hp1 hp2) hp3) (by omega)
              | none =>
                simp only [bindP]
                have hμ3 : measureP st3 ≤ measureP st2 := hp3.1
                obtain ⟨st4, e4, he4, hp4⟩ :=
                  matchTok_suff f TokenType.CLOSE_PAREN st3 (by omega)
                rw [he4]
                cases e4 with
                | some e =>
                  simp only [catchP]
                  exact catch_error_comp f "Error in term: "
                    (post_trans (post_trans (post_trans hp1 hp2) hp3) hp4) (by omega)
                | none =>
                  simp only [catchP]
                  exact ⟨st4, none, rfl,
                    post_trans (post_trans (post_trans hp1 hp2) hp3) hp4⟩
          · rw [if_neg hop]
            simp only [catchP]
            exact ⟨st1, none, rfl, hp1⟩
      · rw [if_neg hatom]
        by_cases hvn : st.current.token_type = TokenType.VARIABLE
            ∨ st.current.token_type = TokenType.NUMERAL
        · rw [if_pos hvn]
          obtain ⟨st1, e1, he1, hp1, hs1⟩ :=
            advance_step f st (by rcases hvn with h | h <;> simp [h]) (by omega)
          rw [he1]
          cases e1 with
          | some e =>
            simp only [catchP]
            exact catch_error_comp f "Error in term: " hp1 (by omega)
          | none =>
            simp only [catchP]
            exact ⟨st1, none, rfl, hp1⟩
        · rw [if_neg hvn]
          obtain ⟨st1, e1, he1, hp1, -, -⟩ :=
            (suffA f).2.1 "Expected <term>" st (by omega)
          rw [he1]
          cases e1 with
          | some e =>
            simp only [catchP]
            exact catch_error_comp f "Error in term: " hp1 (by omega)
          | none =>
            simp only [catchP]
            exact ⟨st1, none, rfl, hp1⟩
  · -- term_list
    intro st hf
    match f, hf with
    | f + 1, hf =>
      simp only [term_listF]
      obtain ⟨st1, e1, he1, hp1⟩ :=
        (IH f (Nat.lt_succ_self f)).1 st (by omega)
      rw [he1]
      cases e1 with
      | some e =>
        have hlt := hp1.2.1 (by simp)
        obtain ⟨st2, e2, he2, hp2⟩ :=
          (IH f (Nat.lt_succ_self f)).2.2 e st1 (by omega)
        exact ⟨st2, e2, he2, post_handler hlt hp1.2.2 hp2⟩
      | none =>
        dsimp only
        by_cases hc : st1.current.token_type = TokenType.COMMA
        · rw [if_pos hc]
          have hμ1 : measureP st1 ≤ measureP st := hp1.1
          obtain ⟨st2, e2, he2, hp2, hs2⟩ :=
            advance_step f st1 (by simp [hc]) (by omega)
          rw [he2]
          cases e2 with
          | some e =>
            have hp12 := post_trans hp1 hp2
            have hlt := hp12.2.1 (by simp)
            obtain ⟨st3, e3, he3, hp3⟩ :=
              (IH f (Nat.lt_succ_self f)).2.2 e st2 (by omega)
            exact ⟨st3, e3, he3, post_handler hlt hp12.2.2 hp3⟩
          | none =>
            obtain ⟨st3, e3, he3, hp3⟩ :=
              (IH f (Nat.lt_succ_self f)).2.1 st2 (by omega)
            exact ⟨st3, e3, he3, post_trans (post_trans hp1 hp2) hp3⟩
        · rw [if_neg hc]
          exact ⟨st1, none, rfl, hp1⟩
  · -- term_list handler
    intro e0 st hf
    match f, hf with
    | f + 1, hf =>
      simp only [term_list_handlerF]
      obtain ⟨st1, e1, he1, hp1, -, -⟩ :=
        (suffA f).2.1 ("Error in term list: " ++ e0) st (by omega)
      rw [he1]
      cases e1 with
      | some e2 => exact ⟨st1, some e2, rfl, hp1⟩
      | none =>
        dsimp only
        have hμ1 : measureP st1 ≤ measureP st := hp1.1
        by_cases hcc : st1.current.token_type = TokenType.COMMA
            ∨ st1.current.token_type = TokenType.CLOSE_PAREN
        · rw [if_pos hcc]
          obtain ⟨st2, e2, he2, hp2⟩ :=
            (IH f (Nat.lt_succ_self f)).2.1 st1 (by omega)
          exact ⟨st2, e2, he2, post_trans hp1 hp2⟩
        · rw [if_neg hcc]
          obtain ⟨st2, e2, he2, hp2, -, -⟩ := (suffA f).1 st1 (by omega)
          have hμ2 : measureP st2 ≤ measureP st1 := hp2.1
          rw [he2]
          cases e2 with
          | some e3 => exact ⟨st2, some e3, rfl, post_trans hp1 hp2⟩
          | none =>
            obtain ⟨st3, e3, he3, hp3⟩ :=
              (IH f (Nat.lt_succ_self f)).2.1 st2 (by omega)
            exact ⟨st3, e3, he3, post_trans (post_trans hp1 hp2) hp3⟩

/-- Sufficiency and postconditions for `predicate`: it returns, satisfies
`Post`, strictly decreases the measure when entered on an `ATOM` (its first
action then consumes), and when entered on anything else and returning
normally it leaves the lookahead on a synchronization token (its only normal
exits run through `error`/`recover`). -/
theorem predicateF_suff (f : Nat) (st : PState) (hf : 3 * measureP st + 6 ≤ f) :
    ∃ st1 e, predicateF f st = some (st1, e) ∧ Post st st1 e
      ∧ (st.current.token_type = TokenType.ATOM → measureP st1 < measureP st)
      ∧ (st.current.token_type ≠ TokenType.ATOM → e = none →
          st1.current.token_type ∈ syncKinds) := by
  simp only [predicateF]
  by_cases hatom : st.current.token_type = TokenType.ATOM
  · rw [if_pos hatom]
    obtain ⟨st1, e1, he1, hp1, hs1⟩ := advance_step f st (by simp [hatom]) (by omega)
    rw [he1]
    cases e1 with
    | some e =>
      simp only [bindP, catchP]
      obtain ⟨st2, e2, he2, hp2, -, -⟩ :=
        (suffA f).2.1 ("Error in predicate: " ++ e) st1 (by omega)
      have hμ2 : measureP st2 ≤ measureP st1 := hp2.1
      exact ⟨st2, e2, he2, post_handler hs1 hp1.2.2 hp2,
        fun _ => by omega, fun hna => absurd hatom hna⟩
    | none =>
      simp only [bindP]
      by_cases hop : st1.current.token_type = TokenType.OPEN_PAREN
      · rw [if_pos hop]
        obtain ⟨st2, e2, he2, hp2, hs2⟩ :=
          advance_step f st1 (by simp [hop]) (by omega)
        rw [he2]
        cases e2 with
        | some e =>
          simp only [bindP, catchP]
          obtain ⟨st3, e3, he3, hp3, -, -⟩ :=
            (suffA f).2.1 ("Error in predicate: " ++ e) st2 (by omega)
          have hμ3 : measureP st3 ≤ measureP st2 := hp3.1
          exact ⟨st3, e3, he3,
            post_handler (by omega) (post_trans hp1 hp2).2.2 hp3,
            fun _ => by omega, fun hna => absurd hatom hna⟩
        | none =>
          simp only [bindP]
          obtain ⟨st3, e3, he3, hp3⟩ := (suffB f).2.1 st2 (by omega)
          have hμ3 : measureP st3 ≤ measureP st2 := hp3.1
          rw [he3]
          cases e3 with
          | some e =>
            simp only [bindP, catchP]
            obtain ⟨st4, e4, he4, hp4, -, -⟩ :=
              (suffA f).2.1 ("Error in predicate: " ++ e) st3 (by omega)
            have hμ4 : measureP st4 ≤ measureP st3 := hp4.1
            exact ⟨st4, e4, he4,
              post_handler (by omega) (post_trans (post_trans hp1 hp2) hp3).2.2 hp4,
              fun _ => by omega, fun hna => absurd hatom hna⟩
          | none =>
            simp only [bindP]
            obtain ⟨st4, e4, he4, hp4⟩ :=
              matchTok_suff f TokenType.CLOSE_PAREN st3 (by omega)
            have hμ4 : measureP st4 ≤ measureP st3 := hp4.1
            rw [he4]
            cases e4 with
            | some e =>
              simp only [catchP]
              obtain ⟨st5, e5, he5, hp5, -, -⟩ :=
                (suffA f).2.1 ("Error in predicate: " ++ e) st4 (by omega)
              have hμ5 : measureP st5 ≤ measureP st4 := hp5.1
              exact ⟨st5, e5, he5,
                post_handler (by omega)
                  (post_trans (post_trans (post_trans hp1 hp2) hp3) hp4).2.2 hp5,
                fun _ => by omega, fun hna => absurd hatom hna⟩
            | none =>
              simp only [catchP]
              exact ⟨st4, none, rfl,
                post_trans (post_trans (post_trans hp1 hp2) hp3) hp4,
                fun _ => by omega, fun hna => absurd hatom hna⟩
      · rw [if_neg hop]
        simp only [catchP]
        exact ⟨st1, none, rfl, hp1, fun _ => hs1, fun hna => absurd hatom hna⟩
  · rw [if_neg hatom]
    obtain ⟨st1, e1, he1, hp1, -, hsync1⟩ :=
      (suffA f).2.1 "Expected <atom> in predicate" st (by omega)
    rw [he1]
    cases e1 with
    | some e =>
      simp only [catchP]
      have hs1 : measureP st1 < measureP st := hp1.2.1 (by simp)
      obtain ⟨st2, e2, he2, hp2, -, hsync2⟩ :=
        (suffA f).2.1 ("Error in predicate: " ++ e) st1 (by omega)
      exact ⟨st2, e2, he2, post_handler hs1 hp1.2.2 hp2,
        fun ha => absurd ha hatom, fun _ he2 => hsync2 he2⟩
    | none =>
      simp only [catchP]
      exact ⟨st1, none, rfl, hp1, fun ha => absurd ha hatom,
        fun _ _ => hsync1 rfl⟩

/-- Joint sufficiency for `predicate_list` and its loop's `except` handler. -/
theorem suffPL : ∀ f : Nat,
    (∀ st : PState, 3 * measureP st + 7 ≤ f →
      ∃ st1 e, predicate_listF f st = some (st1, e) ∧ Post st st1 e)
    ∧ (∀ (e0 : String) (st : PState), 3 * measureP st + 8 ≤ f →
      ∃ st1 e, predicate_list_handlerF f e0 st = some (st1, e) ∧ Post st st1 e) := by
  intro f
  induction f using Nat.strong_induction_on with
  | _ f IH => ?_
  refine ⟨?_, ?_⟩
  · -- predicate_list
    intro st hf
    match f, hf with
    | f + 1, hf =>
      simp only [predicate_listF]
      obtain ⟨st1, e1, he1, hp1, -, -⟩ := predicateF_suff f st (by omega)
      rw [he1]
      cases e1 with
      | some e =>
        have hlt := hp1.2.1 (by simp)
        obtain ⟨st2, e2, he2, hp2⟩ :=
          (IH f (Nat.lt_succ_self f)).2 e st1 (by omega)
        exact ⟨st2, e2, he2, post_handler hlt hp1.2.2 hp2⟩
      | none =>
        dsimp only
        by_cases hc : st1.current.token_type = TokenType.COMMA
        · rw [if_pos hc]
          have hμ1 : measureP st1 ≤ measureP st := hp1.1
          obtain ⟨st2, e2, he2, hp2, hs2⟩ :=
            advance_step f st1 (by simp [hc]) (by omega)
          rw [he2]
          cases e2 with
          | some e =>
            have hp12 := post_trans hp1 hp2
            have hlt := hp12.2.1 (by simp)
            obtain ⟨st3, e3, he3, hp3⟩ :=
              (IH f (Nat.lt_succ_self f)).2 e st2 (by omega)
            exact ⟨st3, e3, he3, post_handler hlt hp12.2.2 hp3⟩
          | none =>
            obtain ⟨st3, e3, he3, hp3⟩ :=
              (IH f (Nat.lt_succ_self f)).1 st2 (by omega)
            exact ⟨st3, e3, he3, post_trans (post_trans hp1 hp2) hp3⟩
        · rw [if_neg hc]
          exact ⟨st1, none, rfl, hp1⟩
  · -- predicate_list handler
    intro e0 st hf
    match f, hf with
    | f + 1, hf =>
      simp only [predicate_list_handlerF]
      obtain ⟨st1, e1, he1, hp1, -, -⟩ :=
        (suffA f).2.1 ("Error in predicate list: " ++ e0) st (by omega)
      rw [he1]
      cases e1 with
      | some e2 => exact ⟨st1, some e2, rfl, hp1⟩
      | none =>
        dsimp only
        have hμ1 : measureP st1 ≤ measureP st := hp1.1
        by_cases hcc : st1.current.token_type = TokenType.COMMA
            ∨ st1.current.token_type = TokenType.PERIOD
            ∨ st1.current.token_type = TokenType.QUERY
        · rw [if_pos hcc]
          obtain ⟨st2, e2, he2, hp2⟩ :=
            (IH f (Nat.lt_succ_self f)).1 st1 (by omega)
          exact ⟨st2, e2, he2, post_trans hp1 hp2⟩
        · rw [if_neg hcc]
          obtain ⟨st2, e2, he2, hp2, -, -⟩ := (suffA f).1 st1 (by omega)
          have hμ2 : measureP st2 ≤ measureP st1 := hp2.1
          rw [he2]
          cases e2 with
          | some e3 => exact ⟨st2, some e3, rfl, post_trans hp1 hp2⟩
          | none =>
            obtain ⟨st3, e3, he3, hp3⟩ :=
              (IH f (Nat.lt_succ_self f)).1 st2 (by omega)
            exact ⟨st3, e3, he3, post_trans (post_trans hp1 hp2) hp3⟩

/-- Sufficiency and postcondition for `clause`: it returns, satisfies
`Post`, and a normal return with the lookahead on an `ATOM` strictly
decreased the measure (the loop in `clause_list` only continues after
consuming input). -/
theorem clauseF_suff (f : Nat) (st : PState) (hf : 3 * measureP st + 8 ≤ f) :
    ∃ st1 e, clauseF f st = some (st1, e) ∧ Post st st1 e
      ∧ (e = none → st1.current.token_type = TokenType.ATOM →
          measureP st1 < measureP st) := by
  simp only [clauseF]
  obtain ⟨st1, e1, he1, hp1, hP1, hP2⟩ := predicateF_suff f st (by omega)
  have hμ1 : measureP st1 ≤ measureP st := hp1.1
  rw [he1]
  cases e1 with
  | some e =>
    simp only [bindP, catchP]
    have hs1 : measureP st1 < measureP st := hp1.2.1 (by simp)
    obtain ⟨st2, e2, he2, hp2, -, -⟩ :=
      (suffA f).2.1 ("Error in clause: " ++ e) st1 (by omega)
    have hμ2 : measureP st2 ≤ measureP st1 := hp2.1
    exact ⟨st2, e2, he2, post_handler hs1 hp1.2.2 hp2, fun _ _ => by omega⟩
  | none =>
    simp only [bindP]
    by_cases hper : st1.current.token_type = TokenType.PERIOD
    · rw [if_pos hper]
      obtain ⟨st2, e2, he2, hp2, hs2⟩ :=
        advance_step f st1 (by simp [hper]) (by omega)
      rw [he2]
      cases e2 with
      | some e =>
        simp only [catchP]
        obtain ⟨st3, e3, he3, hp3, -, -⟩ :=
          (suffA f).2.1 ("Error in clause: " ++ e) st2 (by omega)
        have hμ3 : measureP st3 ≤ measureP st2 := hp3.1
        exact ⟨st3, e3, he3,
          post_handler (by omega) (post_trans hp1 hp2).2.2 hp3,
          fun _ _ => by omega⟩
      | none =>
        simp only [catchP]
        exact ⟨st2, none, rfl, post_trans hp1 hp2, fun _ _ => by omega⟩
    · rw [if_neg hper]
      by_cases hcd : st1.current.token_type = TokenType.COLON_DASH
      · rw [if_pos hcd]
        obtain ⟨st2, e2, he2, hp2, hs2⟩ :=
          advance_step f st1 (by simp [hcd]) (by omega)
        rw [he2]
        cases e2 with
        | some e =>
          simp only [bindP, catchP]
          obtain ⟨st3, e3, he3, hp3, -, -⟩ :=
            (suffA f).2.1 ("Error in clause: " ++ e) st2 (by omega)
          have hμ3 : measureP st3 ≤ measureP st2 := hp3.1
          exact ⟨st3, e3, he3,
            post_handler (by omega) (post_trans hp1 hp2).2.2 hp3,
            fun _ _ => by omega⟩
        | none =>
          simp only [bindP]
          obtain ⟨st3, e3, he3, hp3⟩ := (suffPL f).1 st2 (by omega)
          have hμ3 : measureP st3 ≤ measureP st2 := hp3.1
          rw [he3]
          cases e3 with
          | some e =>
            simp only [bindP, catchP]
            obtain ⟨st4, e4, he4, hp4, -, -⟩ :=
              (suffA f).2.1 ("Error in clause: " ++ e) st3 (by omega)
            have hμ4 : measureP st4 ≤ measureP st3 := hp4.1
            exact ⟨st4, e4, he4,
              post_handler (by omega) (post_trans (post_trans hp1 hp2) hp3).2.2 hp4,
              fun _ _ => by omega⟩
          | none =>
            simp only [bindP]
            obtain ⟨st4, e4, he4, hp4⟩ :=
              matchTok_suff f TokenType.PERIOD st3 (by omega)
            have hμ4 : measureP st4 ≤ measureP st3 := hp4.1
            rw [he4]
            cases e4 with
            | some e =>
              simp only [catchP]
              obtain ⟨st5, e5, he5, hp5, -, -⟩ :=
                (suffA f).2.1 ("Error in clause: " ++ e) st4 (by omega)
              have hμ5 : measureP st5 ≤ measureP st4 := hp5.1
              exact ⟨st5, e5, he5,
                post_handler (by omega)
                  (post_trans (post_trans (post_trans hp1 hp2) hp3) hp4).2.2 hp5,
                fun _ _ => by omega⟩
            | none =>
              simp only [catchP]
              exact ⟨st4, none, rfl,
                post_trans (post_trans (post_trans hp1 hp2) hp3) hp4,
                fun _ _ => by omega⟩
      · rw [if_neg hcd]
        obtain ⟨st2, e2, he2, hp2, -, hsync2⟩ :=
          (suffA f).2.1
            ("Expected " ++ quoteS ++ "." ++ quoteS ++ " or " ++ quoteS
              ++ ":-" ++ quoteS ++ " after predicate") st1 (by omega)
        have hμ2 : measureP st2 ≤ measureP st1 := hp2.1
        rw [he2]
        cases e2 with
        | some e =>
          simp only [catchP]
          have hs2 : measureP st2 < measureP st1 := hp2.2.1 (by simp)
          obtain ⟨st3, e3, he3, hp3, -, hsync3⟩ :=
            (suffA f).2.1 ("Error in clause: " ++ e) st2 (by omega)
          refine ⟨st3, e3, he3,
            post_trans hp1 (post_handler hs2 hp2.2.2 hp3), ?_⟩
          intro he3 hat3
          have := hsync3 he3
          rw [hat3] at this
          exact absurd this (by decide)
        | none =>
          simp only [catchP]
          refine ⟨st2, none, rfl, post_trans hp1 hp2, ?_⟩
          intro _ hat2
          have := hsync2 rfl
          rw [hat2] at this
          exact absurd this (by decide)

/-- Joint sufficiency for `clause_list` and its loop's `except` handler: the
loop only repeats after the measure strictly decreased (a continued
iteration left the lookahead on `ATOM`, which `clause` only does after
consuming; the handler only runs after an exception, which consumed the
generator's error entry). -/
theorem suffCL : ∀ f : Nat,
    (∀ st : PState, 3 * measureP st + 9 ≤ f →
      ∃ st1 e, clause_listF f st = some (st1, e) ∧ Post st st1 e)
    ∧ (∀ (e0 : String) (st : PState), 3 * measureP st + 10 ≤ f →
      ∃ st1 e, clause_list_handlerF f e0 st = some (st1, e) ∧ Post st st1 e) := by
  intro f
  induction f using Nat.strong_induction_on with
  | _ f IH => ?_
  refine ⟨?_, ?_⟩
  · -- clause_list
    intro st hf
    match f, hf with
    | f + 1, hf =>
      simp only [clause_listF]
      obtain ⟨st1, e1, he1, hp1, hA⟩ := clauseF_suff f st (by omega)
      rw [he1]
      cases e1 with
      | some e =>
        have hlt := hp1.2.1 (by simp)
        obtain ⟨st2, e2, he2, hp2⟩ :=
          (IH f (Nat.lt_succ_self f)).2 e st1 (by omega)
        exact ⟨st2, e2, he2, post_handler hlt hp1.2.2 hp2⟩
      | none =>
        dsimp only
        by_cases hat : st1.current.token_type = TokenType.ATOM
        · rw [if_pos hat]
          have hs1 := hA rfl hat
          obtain ⟨st2, e2, he2, hp2⟩ :=
            (IH f (Nat.lt_succ_self f)).1 st1 (by omega)
          exact ⟨st2, e2, he2, post_trans hp1 hp2⟩
        · rw [if_neg hat]
          exact ⟨st1, none, rfl, hp1⟩
  · -- clause_list handler
    intro e0 st hf
    match f, hf with
    | f + 1, hf =>
      simp only [clause_list_handlerF]
      obtain ⟨st1, e1, he1, hp1, -, -⟩ :=
        (suffA f).2.1 ("Error in clause list: " ++ e0) st (by omega)
      rw [he1]
      cases e1 with
      | some e2 => exact ⟨st1, some e2, rfl, hp1⟩
      | none =>
        dsimp only
        have hμ1 : measureP st1 ≤ measureP st := hp1.1
        by_cases hcc : st1.current.token_type = TokenType.ATOM
            ∨ st1.current.token_type = TokenType.QUERY
        · rw [if_pos hcc]
          obtain ⟨st2, e2, he2, hp2⟩ :=
            (IH f (Nat.lt_succ_self f)).1 st1 (by omega)
          exact ⟨st2, e2, he2, post_trans hp1 hp2⟩
        · rw [if_neg hcc]
          obtain ⟨st2, e2, he2, hp2, -, -⟩ := (suffA f).1 st1 (by omega)
          have hμ2 : measureP st2 ≤ measureP st1 := hp2.1
          rw [he2]
          cases e2 with
          | some e3 => exact ⟨st2, some e3, rfl, post_trans hp1 hp2⟩
          | none =>
            obtain ⟨st3, e3, he3, hp3⟩ :=
              (IH f (Nat.lt_succ_self f)).1 st2 (by omega)
            exact ⟨st3, e3, he3, post_trans (post_trans hp1 hp2) hp3⟩
  
/-- Sufficiency for `query`: returns and satisfies `Post`. -/
theorem queryF_suff (f : Nat) (st : PState) (hf : 3 * measureP st + 8 ≤ f) :
    ∃ st1 e, queryF f st = some (st1, e) ∧ Post st st1 e := by
  simp only [queryF]
  by_cases hq : st.current.token_type = TokenType.QUERY
  · rw [if_pos hq]
    obtain ⟨st1, e1, he1, hp1, hs1⟩ := advance_step f st (by simp [hq]) (by omega)
    rw [he1]
    cases e1 with
    | some e => exact ⟨st1, some e, by simp [bindP], hp1⟩
    | none =>
      simp only [bindP]
      obtain ⟨st2, e2, he2, hp2⟩ := (suffPL f).1 st1 (by omega)
      have hμ2 : measureP st2 ≤ measureP st1 := hp2.1
      rw [he2]
      cases e2 with
      | some e => exact ⟨st2, some e, by simp [bindP], post_trans hp1 hp2⟩
      | none =>
        simp only [bindP]
        by_cases hper : st2.current.token_type = TokenType.PERIOD
        · rw [if_pos hper]
          obtain ⟨st3, e3, he3, hp3, -⟩ :=
            advance_step f st2 (by simp [hper]) (by omega)
          exact ⟨st3, e3, he3, post_trans (post_trans hp1 hp2) hp3⟩
        · rw [if_neg hper]
          obtain ⟨st3, e3, he3, hp3, -, -⟩ :=
            (suffA f).2.1
              ("Expected " ++ quoteS ++ "." ++ quoteS ++ " at the end of query")
              st2 (by omega)
          exact ⟨st3, e3, he3, post_trans (post_trans hp1 hp2) hp3⟩
  · rw [if_neg hq]
    obtain ⟨st1, e1, he1, hp1, -, -⟩ :=
      (suffA f).2.1
        ("Expected " ++ quoteS ++ "?-" ++ quoteS ++ " to start a query")
        st (by omega)
    exact ⟨st1, e1, he1, hp1⟩

/-- Sufficiency for `program`: returns and satisfies `Post`. -/
theorem programF_suff (f : Nat) (st : PState) (hf : 3 * measureP st + 10 ≤ f) :
    ∃ st1 e, programF f st = some (st1, e) ∧ Post st st1 e := by
  simp only [programF]
  by_cases hq : st.current.token_type = TokenType.QUERY
  · rw [if_pos hq]
    exact queryF_suff f st (by omega)
  · rw [if_neg hq]
    by_cases hat : st.current.token_type = TokenType.ATOM
    · rw [if_pos hat]
      obtain ⟨st1, e1, he1, hp1⟩ := (suffCL f).1 st (by omega)
      have hμ1 : measureP st1 ≤ measureP st := hp1.1
      rw [he1]
      cases e1 with
      | some e => exact ⟨st1, some e, by simp [bindP], hp1⟩
      | none =>
        simp only [bindP]
        by_cases hq1 : st1.current.token_type = TokenType.QUERY
        · rw [if_pos hq1]
          obtain ⟨st2, e2, he2, hp2⟩ := queryF_suff f st1 (by omega)
          exact ⟨st2, e2, he2, post_trans hp1 hp2⟩
        · rw [if_neg hq1]
          by_cases heof : st1.current.token_type = TokenType.EOF
          · rw [if_neg (show ¬(st1.current.token_type ≠ TokenType.EOF) from
              fun hcontra => hcontra heof)]
            exact ⟨st1, none, rfl, hp1⟩
          · rw [if_pos heof]
            obtain ⟨st2, e2, he2, hp2, -, -⟩ :=
              (suffA f).2.1 "Expected <query> or end of file after clause list"
                st1 (by omega)
            exact ⟨st2, e2, he2, post_trans hp1 hp2⟩
    · rw [if_neg hat]
      obtain ⟨st1, e1, he1, hp1, -, -⟩ :=
        (suffA f).2.1 "Expected <clause-list> or <query> at start of program"
          st (by omega)
      exact ⟨st1, e1, he1, hp1⟩

/-- Sufficiency for `parse`: returns normally (never with an exception) and
satisfies `Post`. -/
theorem parseF_suff (f : Nat) (st : PState) (hf : 3 * measureP st + 10 ≤ f) :
    ∃ st1, parseF f st = some (st1, none) ∧ Post st st1 none := by
  simp only [parseF]
  obtain ⟨st1, e1, he1, hp1⟩ := programF_suff f st hf
  rw [he1]
  cases e1 with
  | some e =>
    simp only [catchP]
    exact ⟨st1, rfl, ⟨hp1.1, by simp, hp1.2.2⟩⟩
  | none =>
    simp only [catchP]
    exact ⟨st1, rfl, hp1⟩

/-- Claim C7: for every finite input text, running the parser's top-level
entry terminates: the scanner's token stream is finite (at most one entry
per character plus the terminal one), every loop either strictly advances
the token cursor or reaches end-of-input (captured by the measure-based
fuel bounds proved above), so the whole pipeline with its fixed fuel never
runs out (`runParse` never returns the fuel-exhaustion marker `none`). -/
theorem C7_parse_terminates : ∀ code : String,
    (lexAll code).length ≤ code.toList.length + 1 ∧ runParse code ≠ none := by
  intro code
  have hG : (lexAll code).length ≤ code.toList.length + 1 := by
    simp only [lexAll]
    exact lexAux_length_le _ _ _ _
  refine ⟨hG, ?_⟩
  simp only [runParse, initParser, fuelFor]
  have hμ0 : measureP ⟨lexAll code, ⟨.EOF, "", 0, 0⟩, []⟩
      = 2 * (lexAll code).length := by
    simp [measureP]
  obtain ⟨st1, e1, he1, hp1, -, -⟩ :=
    (suffA (6 * code.toList.length + 60)).1
      ⟨lexAll code, ⟨.EOF, "", 0, 0⟩, []⟩ (by omega)
  rw [he1]
  cases e1 with
  | some e => simp [bindP]
  | none =>
    simp only [bindP]
    have hμ1 : measureP st1 ≤ 2 * (lexAll code).length := hμ0 ▸ hp1.1
    obtain ⟨st2, he2, -⟩ :=
      parseF_suff (6 * code.toList.length + 60) st1 (by omega)
    rw [he2]
    simp

/-- Claim C1 (counterexample): on the input `a.'b` — whose quoted atom is
never closed — the unterminated-quote `ValueError` raised by the scanner is
caught by `clause`'s `except` handler and appended to the diagnostics list
as a recoverable entry ("Error in clause: Unterminated string …"), parsing
continues (a second diagnostic follows), and the run returns normally: no
failure signal reaches the caller, contradicting the claim that the
condition is never appended and aborts the unit with a hard failure. -/
theorem C1_counterexample :
    runParse ("a." ++ quoteS ++ "b") =
      some (⟨[], ⟨.PERIOD, ".", 1, 2⟩,
        ["Syntax Error: Error in clause: Unterminated string starting at line 1, char 3 at line 1, char 2",
         "Syntax Error: Expected <query> or end of file after clause list at line 1, char 2"]⟩,
        none)
    ∧ ("Syntax Error: Error in clause: Unterminated string starting at line 1, char 3 at line 1, char 2"
        ∈ ["Syntax Error: Error in clause: Unterminated string starting at line 1, char 3 at line 1, char 2",
           "Syntax Error: Expected <query> or end of file after clause list at line 1, char 2"]) :=
  ⟨rfl, List.mem_cons_self _ _⟩

/-- Claim C1 (amended): the unterminated-quote `ValueError` does propagate
out of the scanner, but every grammar rule with an `except` handler catches
it and records it as a recoverable diagnostic, and `Parser.parse` catches
(and merely prints) any exception that reaches it — so `parse` never
returns an exception to its caller; only `Parser.__init__`'s initial
`advance` (before `parse` is called) can let the failure escape. -/
theorem C1_parse_never_propagates :
    ∀ (f : Nat) (st st1 : PState) (e : Option String),
      parseF f st = some (st1, e) → e = none := by
  intro f st st1 e h
  simp only [parseF] at h
  cases hp : programF f st with
  | none => rw [hp] at h; simp [catchP] at h
  | some pr =>
    obtain ⟨stP, eP⟩ := pr
    rw [hp] at h
    cases eP with
    | some e2 =>
      simp only [catchP] at h
      injection h with h1
      injection h1 with h2 h3
      exact h3.symm
    | none =>
      simp only [catchP] at h
      injection h with h1
      injection h1 with h2 h3
      exact h3.symm

/-- Witness for C1: the amended theorem applied at a concrete parser state,
with the parse outcome evaluated by `rfl`. -/
theorem C1_witness :
    parseF 20 ⟨[], ⟨.EOF, "EOF", 1, 1⟩, []⟩ =
      some (⟨[], ⟨.EOF, "EOF", 1, 1⟩,
        ["Syntax Error: Expected <clause-list> or <query> at start of program at line 1, char 1"]⟩,
        none)
    ∧ (none : Option String) = none := by
  constructor
  · rfl
  · exact C1_parse_never_propagates 20 ⟨[], ⟨.EOF, "EOF", 1, 1⟩, []⟩
      ⟨[], ⟨.EOF, "EOF", 1, 1⟩,
        ["Syntax Error: Expected <clause-list> or <query> at start of program at line 1, char 1"]⟩
      none (by rfl)

/-- Claim C2 (counterexample): `match` on a mismatch is not position-
preserving: with lookahead `ATOM "b"` and expected `PERIOD`, the recorded
diagnostic's recovery (invoked by `error` itself, not separately by the
caller) advances past the mismatched token to the next synchronization
token, so the lookahead after `match` differs from the one before. -/
theorem C2_counterexample :
    matchTok 10 .PERIOD ⟨[.ok ⟨.PERIOD, ".", 1, 5⟩], ⟨.ATOM, "b", 1, 3⟩, []⟩ =
      some (⟨[], ⟨.PERIOD, ".", 1, 5⟩,
        ["Syntax Error: Expected TokenType.PERIOD, but found TokenType.ATOM at line 1, char 3"]⟩,
        none)
    ∧ (⟨.PERIOD, ".", 1, 5⟩ : Lexeme) ≠ (⟨.ATOM, "b", 1, 3⟩ : Lexeme) :=
  ⟨rfl, by decide⟩

/-- Claim C2 (amended): on a kind mismatch `match` records the diagnostic
"Expected `<expected>`, but found `<actual>`" at the current token's
position as the next appended entry, and then itself invokes panic-mode
recovery through `error`; the lookahead is left unchanged (and exactly one
diagnostic is recorded) precisely when the mismatched token already lies in
the recovery synchronization set `{PERIOD, COMMA, QUERY, EOF, CLOSE_PAREN}`
— otherwise recovery discards tokens. -/
theorem C2_match_mismatch (f : Nat) (expected : TokenType) (st : PState)
    (hne : st.current.token_type ≠ expected)
    (hf : 3 * measureP st + 4 ≤ f) :
    ∃ st1 e δ, matchTok f expected st = some (st1, e)
      ∧ st1.errors = st.errors ++
          (fmtErr ("Expected " ++ expected.str ++ ", but found "
            ++ st.current.token_type.str) st.current :: δ)
      ∧ (st.current.token_type ∈ syncKinds →
          st1 = { st with errors := st.errors ++
              [fmtErr ("Expected " ++ expected.str ++ ", but found "
                ++ st.current.token_type.str) st.current] }
            ∧ e = none ∧ δ = []) := by
  obtain ⟨st1, e, he, hp, ⟨δ, hδ⟩, -⟩ :=
    (suffA f).2.1
      ("Expected " ++ expected.str ++ ", but found " ++ st.current.token_type.str)
      st (by omega)
  refine ⟨st1, e, δ, ?_, hδ, ?_⟩
  · simp only [matchTok]
    rw [if_neg hne]
    exact he
  · intro hmem
    obtain ⟨f2, rfl⟩ : ∃ f2, f = f2 + 2 := ⟨f - 2, by omega⟩
    have hdirect : errorF (f2 + 2)
        ("Expected " ++ expected.str ++ ", but found " ++ st.current.token_type.str)
        st = some ({ st with errors := st.errors ++
          [fmtErr ("Expected " ++ expected.str ++ ", but found "
            ++ st.current.token_type.str) st.current] }, none) := by
      simp only [errorF, recoverF]
      rw [if_pos (Or.inl hmem)]
    rw [hdirect] at he
    injection he with h1
    injection h1 with h2 h3
    subst h2
    refine ⟨rfl, h3.symm, ?_⟩
    have := hδ
    simp only at this
    have h4 : st.errors ++ [fmtErr ("Expected " ++ expected.str ++ ", but found "
        ++ st.current.token_type.str) st.current] = st.errors ++
        (fmtErr ("Expected " ++ expected.str ++ ", but found "
          ++ st.current.token_type.str) st.current :: δ) := this
    have h5 := List.append_cancel_left h4
    injection h5 with h6 h7
    exact h7.symm

/-- Witness for C2: the amended theorem applied with lookahead `COMMA`
(already a synchronization token) and expected `PERIOD`: exactly one
diagnostic, lookahead unchanged. -/
theorem C2_witness :
    ∃ st1 e δ, matchTok 10 .PERIOD ⟨[], ⟨.COMMA, ",", 1, 1⟩, []⟩ = some (st1, e)
      ∧ st1.errors = [] ++
          (fmtErr ("Expected " ++ TokenType.PERIOD.str ++ ", but found "
            ++ TokenType.COMMA.str) ⟨.COMMA, ",", 1, 1⟩ :: δ)
      ∧ (TokenType.COMMA ∈ syncKinds →
          st1 = ⟨[], ⟨.COMMA, ",", 1, 1⟩,
              [] ++ [fmtErr ("Expected " ++ TokenType.PERIOD.str ++ ", but found "
                ++ TokenType.COMMA.str) ⟨.COMMA, ",", 1, 1⟩]⟩
            ∧ e = none ∧ δ = []) :=
  C2_match_mismatch 10 .PERIOD ⟨[], ⟨.COMMA, ",", 1, 1⟩, []⟩ (by decide) (by decide)

/-- Claim C3 (counterexample): an input beginning with a query and carrying
trailing tokens (`?- a. b.`) parses with an empty diagnostics list even
though the lookahead after `program` is not `EOF`: no "expected end of
input" diagnostic exists anywhere in the parser. -/
theorem C3_counterexample :
    runParse "?- a. b." =
      some (⟨[.ok ⟨.PERIOD, ".", 1, 8⟩, .ok ⟨.EOF, "EOF", 1, 8⟩],
        ⟨.ATOM, "b", 1, 7⟩, []⟩, none)
    ∧ TokenType.ATOM ≠ TokenType.EOF :=
  ⟨rfl, by decide⟩

/-- Claim C3 (amended): `program` performs no end-of-input check after its
branches; in particular the query branch is exactly `query` — trailing
tokens after a leading query produce no diagnostic.  Only the clause-list
branch, when the token after the clause list is neither `QUERY` nor `EOF`,
records "Expected <query> or end of file after clause list". -/
theorem C3_program_query_branch (f : Nat) (st : PState)
    (hq : st.current.token_type = TokenType.QUERY) :
    programF f st = queryF f st := by
  simp only [programF]
  rw [if_pos hq]

/-- Witness for C3: the amended theorem at a concrete state whose lookahead
is `QUERY`. -/
theorem C3_witness :
    programF 10 ⟨[], ⟨.QUERY, "?-", 1, 1⟩, []⟩ =
      queryF 10 ⟨[], ⟨.QUERY, "?-", 1, 1⟩, []⟩ :=
  C3_program_query_branch 10 ⟨[], ⟨.QUERY, "?-", 1, 1⟩, []⟩ (by decide)

/-- Claim C4 (counterexample): clause-rule recovery does not skip to the
claimed set `{PERIOD, QUERY, EOF}`: from lookahead `ATOM` with a `COMMA`
next in the stream, `recover` stops at the `COMMA`. -/
theorem C4_counterexample :
    recoverF 10 ⟨[.ok ⟨.COMMA, ",", 1, 3⟩, .ok ⟨.PERIOD, ".", 1, 5⟩],
        ⟨.ATOM, "b", 1, 1⟩, []⟩ =
      some (⟨[.ok ⟨.PERIOD, ".", 1, 5⟩], ⟨.COMMA, ",", 1, 3⟩, []⟩, none)
    ∧ TokenType.COMMA ≠ TokenType.PERIOD
    ∧ TokenType.COMMA ≠ TokenType.QUERY
    ∧ TokenType.COMMA ≠ TokenType.EOF :=
  ⟨rfl, by decide, by decide, by decide⟩

/-- Claim C4 (amended): every error raised in `clause` synchronizes through
the single shared `recover`, whose set is `{PERIOD, COMMA, QUERY, EOF,
CLOSE_PAREN}`: a normal return from `recover` leaves the lookahead on a
token of that set, and a lookahead already in the set stops recovery
immediately (nothing is discarded). -/
theorem C4_recover_sync_set :
    (∀ (f : Nat) (st st1 : PState), recoverF f st = some (st1, none) →
      st1.current.token_type ∈ syncKinds)
    ∧ (∀ (f : Nat) (st : PState), st.current.token_type ∈ syncKinds →
      recoverF (f + 1) st = some (st, none)) := by
  constructor
  · intro f
    induction f with
    | zero => intro st st1 h; simp [recoverF] at h
    | succ f ih =>
      intro st st1 h
      simp only [recoverF] at h
      split at h
      · rename_i hcond
        injection h with h1
        injection h1 with h2 h3
        subst h2
        rcases hcond with hmem | heof
        · exact hmem
        · rw [heof]; decide
      · cases hA : advanceF f st with
        | none => rw [hA] at h; simp [bindP] at h
        | some pr =>
          obtain ⟨stA, eA⟩ := pr
          rw [hA] at h
          cases eA with
          | some e =>
            simp only [bindP] at h
            injection h with h1
            injection h1 with h2 h3
            exact Option.noConfusion h3
          | none =>
            simp only [bindP] at h
            exact ih stA st1 h
  · intro f st hmem
    simp only [recoverF]
    rw [if_pos (Or.inl hmem)]

/-- Witness for C4: both directions at a concrete state with a `PERIOD`
lookahead. -/
theorem C4_witness :
    TokenType.PERIOD ∈ syncKinds
    ∧ recoverF 1 ⟨[], ⟨.PERIOD, ".", 1, 1⟩, []⟩ =
        some (⟨[], ⟨.PERIOD, ".", 1, 1⟩, []⟩, none) :=
  ⟨C4_recover_sync_set.1 1 ⟨[], ⟨.PERIOD, ".", 1, 1⟩, []⟩
      ⟨[], ⟨.PERIOD, ".", 1, 1⟩, []⟩ (by rfl),
    C4_recover_sync_set.2 0 ⟨[], ⟨.PERIOD, ".", 1, 1⟩, []⟩ (by decide)⟩

/-- Claim C5 (counterexample): on the input `'a` (an unterminated quoted
atom) the scanner's run contains no `EOF` entry at all — it ends with the
fatal error — so "exactly one EndOfInput token" fails for this input. -/
theorem C5_counterexample :
    lexAll (quoteS ++ "a") =
      [Except.error "Unterminated string starting at line 1, char 1"]
    ∧ eofCount (lexAll (quoteS ++ "a")) = 0
    ∧ (0 : Nat) ≠ 1 :=
  ⟨rfl, rfl, by decide⟩

/-- Claim C5 (amended): when scanning completes without the fatal
unterminated-quote error, the token sequence is a prefix of non-`EOF`
lexemes followed by exactly one terminal `EOF`; when the fatal error
occurs, the sequence ends with the error entry and contains no `EOF`.
After the generator is exhausted, every further `advance` keeps setting the
lookahead to the fabricated `EOF` lexeme (idempotent at end-of-input). -/
theorem C5_eof_structure :
    (∀ code : String,
      (∃ (pre : List Lexeme) (lex : Lexeme),
          lexAll code = pre.map Except.ok ++ [Except.ok lex]
          ∧ lex.token_type = TokenType.EOF
          ∧ ∀ x ∈ pre, x.token_type ≠ TokenType.EOF)
      ∨ (∃ (pre : List Lexeme) (m : String),
          lexAll code = pre.map Except.ok ++ [Except.error m]
          ∧ ∀ x ∈ pre, x.token_type ≠ TokenType.EOF))
    ∧ (∀ (f : Nat) (st : PState), st.gen = [] →
        advanceF (f + 1) st = some ({ st with current := eofNeg }, none)) := by
  constructor
  · intro code
    simp only [lexAll]
    exact lexAux_shape _ _ _ _ (Nat.lt_succ_self _)
  · intro f st hg
    obtain ⟨gen, cur, errs⟩ := st
    simp only at hg
    subst hg
    rfl

/-- Witness for C5: repeated `advance` at an exhausted generator keeps
producing the `EOF` lookahead. -/
theorem C5_witness :
    advanceF 5 ⟨[], ⟨.ATOM, "a", 1, 1⟩, []⟩ = some (⟨[], eofNeg, []⟩, none)
    ∧ advanceF 5 ⟨[], eofNeg, []⟩ = some (⟨[], eofNeg, []⟩, none) :=
  ⟨C5_eof_structure.2 4 ⟨[], ⟨.ATOM, "a", 1, 1⟩, []⟩ rfl,
    C5_eof_structure.2 4 ⟨[], eofNeg, []⟩ rfl⟩

/-- Claim C6: an `INVALID` lexeme fetched into the lookahead (wherever
`advance` is called from, panic-mode recovery included) makes `advance`
itself report it at once: the "Invalid token `<char>`" diagnostic, carrying
the offending character and positioned at that lexeme, is the next entry
appended to the diagnostics list — before any later, higher-level error. -/
theorem C6_invalid_token_reported (f : Nat) (st : PState) (lex : Lexeme)
    (rest : List (Except String Lexeme))
    (hg : st.gen = Except.ok lex :: rest)
    (hinv : lex.token_type = TokenType.INVALID)
    (hf : 3 * measureP st + 1 ≤ f + 1) :
    ∃ st1 e δ, advanceF (f + 1) st = some (st1, e)
      ∧ st1.errors = st.errors ++
          (fmtErr ("Invalid token " ++ quoteS ++ lex.value) lex :: δ) := by
  have hμ1 : measureP { st with gen := rest, current := lex }
      ≤ 2 * rest.length + 1 := by
    simp only [measureP]
    split <;> omega
  have hμ0 : 2 * rest.length + 2 ≤ measureP st := by
    simp only [measureP, hg, List.length_cons]
    split <;> omega
  obtain ⟨st1, e, he, hp, ⟨δ, hδ⟩, -⟩ :=
    (suffA f).2.1 ("Invalid token " ++ quoteS ++ lex.value)
      { st with gen := rest, current := lex } (by omega)
  refine ⟨st1, e, δ, ?_, hδ⟩
  simp only [advanceF, hg]
  rw [if_pos hinv]
  exact he

/-- Witness for C6: a concrete invalid lexeme (`#`) at the head of the
stream; the diagnostic naming it is appended immediately. -/
theorem C6_witness :
    ∃ st1 e δ,
      advanceF 10 ⟨[Except.ok ⟨.INVALID, "#", 1, 1⟩], ⟨.EOF, "", 0, 0⟩, []⟩ =
        some (st1, e)
      ∧ st1.errors = [] ++
          (fmtErr ("Invalid token " ++ quoteS ++ "#") ⟨.INVALID, "#", 1, 1⟩ :: δ) :=
  C6_invalid_token_reported 9 ⟨[Except.ok ⟨.INVALID, "#", 1, 1⟩, ]
  , ⟨.EOF, "", 0, 0⟩, []⟩ ⟨.INVALID, "#", 1, 1⟩ [] rfl rfl (by decide)

/-- Claim C8: digit-initiated lexemes become `NUMERAL` tokens whose text is
the maximal contiguous digit run (no sign, no decimal point — those
characters end the run); lowercase-initiated runs of letters, digits and
underscores become one `ATOM`; uppercase- or underscore-initiated such runs
become one `VARIABLE` (the bare `_` included), all with maximal munch. -/
theorem C8_maximal_munch : ∀ (ch : Char) (cs : List Char) (l c : Int),
    (isDigitP ch = true →
      scanStep (ch :: cs) l c =
        .tok ⟨.NUMERAL, String.singleton ch ++ String.mk (cs.takeWhile isDigitP),
            l, c + 1⟩
          (cs.dropWhile isDigitP) l (c + 1 + (cs.takeWhile isDigitP).length))
    ∧ (isLowerP ch = true →
      scanStep (ch :: cs) l c =
        .tok ⟨.ATOM, String.singleton ch ++ String.mk (cs.takeWhile isIdentP),
            l, c + 1⟩
          (cs.dropWhile isIdentP) l (c + 1 + (cs.takeWhile isIdentP).length))
    ∧ ((isUpperP ch || ch = '_') = true →
      scanStep (ch :: cs) l c =
        .tok ⟨.VARIABLE, String.singleton ch ++ String.mk (cs.takeWhile isIdentP),
            l, c + 1⟩
          (cs.dropWhile isIdentP) l (c + 1 + (cs.takeWhile isIdentP).length)) :=
  fun ch cs l c =>
    ⟨fun h => @scanStep_digit ch cs l c h, fun h => @scanStep_lower ch cs l c h,
      fun h => @scanStep_upper ch cs l c h⟩

/-- Witness for C8: maximal munch on concrete inputs — `12x` scans to
`NUMERAL "12"` stopping at `x`, `a_1+` scans to `ATOM "a_1"` stopping at
`+`, and a bare `_` scans to `VARIABLE "_"`. -/
theorem C8_witness :
    scanStep ['1', '2', 'x'] 1 0 = .tok ⟨.NUMERAL, "12", 1, 1⟩ ['x'] 1 2
    ∧ scanStep ['a', '_', '1', '+'] 1 0 = .tok ⟨.ATOM, "a_1", 1, 1⟩ ['+'] 1 3
    ∧ scanStep ['_'] 1 0 = .tok ⟨.VARIABLE, "_", 1, 1⟩ [] 1 1 :=
  ⟨(C8_maximal_munch '1' ['2', 'x'] 1 0).1 (by decide),
    (C8_maximal_munch 'a' ['_', '1', '+'] 1 0).2.1 (by decide),
    (C8_maximal_munch '_' [] 1 0).2.2 (by decide)⟩

/-- Claim C9 (counterexample): on the input `12` the `NUMERAL` token's
reported column is 1 — the position of the run's first character — not 2,
the position at the end of the lexeme, so the claimed end-of-lexeme
convention for multi-character tokens does not hold. -/
theorem C9_counterexample :
    lexAll "12" =
      [Except.ok ⟨.NUMERAL, "12", 1, 1⟩, Except.ok ⟨.EOF, "EOF", 1, 2⟩]
    ∧ (1 : Int) ≠ 2 :=
  ⟨rfl, by decide⟩

/-- Claim C9 (amended): one position convention is applied uniformly, but
it is start-of-lexeme, not end: every token — single-character operators,
`:-` and `?-` (yielded before their second character is consumed),
numerals, atoms, variables and quoted atoms (via `start_position`) — is
reported at the `char_position` value just after its first character was
consumed, i.e. the first character's own position. -/
theorem C9_first_char_positions : ∀ (ch : Char) (rest : List Char) (l c : Int),
    scanStep ('+' :: rest) l c = .tok ⟨.PLUS, "+", l, c + 1⟩ rest l (c + 1)
    ∧ scanStep (':' :: '-' :: rest) l c =
        .tok ⟨.COLON_DASH, ":-", l, c + 1⟩ rest l (c + 1 + 1)
    ∧ scanStep ('?' :: '-' :: rest) l c =
        .tok ⟨.QUERY, "?-", l, c + 1⟩ rest l (c + 1 + 1)
    ∧ (isDigitP ch = true →
        scanStep (ch :: rest) l c =
          .tok ⟨.NUMERAL, String.singleton ch ++ String.mk (rest.takeWhile isDigitP),
              l, c + 1⟩
            (rest.dropWhile isDigitP) l (c + 1 + (rest.takeWhile isDigitP).length))
    ∧ (isLowerP ch = true →
        scanStep (ch :: rest) l c =
          .tok ⟨.ATOM, String.singleton ch ++ String.mk (rest.takeWhile isIdentP),
              l, c + 1⟩
            (rest.dropWhile isIdentP) l (c + 1 + (rest.takeWhile isIdentP).length))
    ∧ ((isUpperP ch || ch = '_') = true →
        scanStep (ch :: rest) l c =
          .tok ⟨.VARIABLE, String.singleton ch ++ String.mk (rest.takeWhile isIdentP),
              l, c + 1⟩
            (rest.dropWhile isIdentP) l (c + 1 + (rest.takeWhile isIdentP).length))
    ∧ (∀ (lex : Lexeme) (rest2 : List Char) (l2 c2 : Int),
        stringLoop rest l (c + 1) "" (c + 1) = .ok (lex, rest2, l2, c2) →
        scanStep (quoteC :: rest) l c = .tok lex rest2 l2 c2
          ∧ lex.char_position = c + 1) :=
  fun ch rest l c =>
    ⟨scanStep_plus rest l c, scanStep_colon_dash rest l c,
      scanStep_query_dash rest l c,
      fun h => @scanStep_digit ch rest l c h,
      fun h => @scanStep_lower ch rest l c h,
      fun h => @scanStep_upper ch rest l c h,
      fun lex rest2 l2 c2 heq =>
        ⟨(@scanStep_quote rest l c lex rest2 l2 c2 heq).1,
          (@scanStep_quote rest l c lex rest2 l2 c2 heq).2.1⟩⟩

/-- Witness for C9: start-of-lexeme positions on concrete inputs,
including a quoted atom whose token carries the opening quote's column. -/
theorem C9_witness :
    scanStep [':', '-', 'x'] 1 0 = .tok ⟨.COLON_DASH, ":-", 1, 1⟩ ['x'] 1 2
    ∧ scanStep ['1'] 1 0 = .tok ⟨.NUMERAL, "1", 1, 1⟩ [] 1 1
    ∧ scanStep [quoteC, 'a', quoteC] 1 0 = .tok ⟨.ATOM, "a", 1, 1⟩ [] 1 3 :=
  ⟨(C9_first_char_positions 'x' ['x'] 1 0).2.1,
    (C9_first_char_positions '1' [] 1 0).2.2.2.1 (by decide),
    ((C9_first_char_positions 'x' ['a', quoteC] 1 0).2.2.2.2.2.2
      ⟨.ATOM, "a", 1, 1⟩ [] 1 3 rfl).1⟩

/-- Claim C10: when the parser requests a token after the generator is
exhausted (after `EOF` was yielded, or after the generator stopped because
of the fatal scanning error), `advance` sets the lookahead to an `EOF`
lexeme with line -1 and char -1, and any diagnostic then recorded through
`error` is formatted "… at line -1, char -1" rather than with a real
source position. -/
theorem C10_exhausted_generator_eof (f : Nat) (st : PState) (m : String)
    (hg : st.gen = []) :
    advanceF (f + 1) st = some ({ st with current := eofNeg }, none)
    ∧ fmtErr m eofNeg = "Syntax Error: " ++ m ++ " at line -1, char -1" := by
  constructor
  · obtain ⟨gen, cur, errs⟩ := st
    simp only at hg
    subst hg
    rfl
  · have h1 : toString (-1 : Int) = "-1" := rfl
    simp only [fmtErr, eofNeg, h1]
    simp only [String.append_assoc]
    rfl

/-- Witness for C10: a concrete state with an exhausted generator; the
fabricated lookahead and the line -1, char -1 diagnostic format, evaluated. -/
theorem C10_witness :
    advanceF 7 ⟨[], ⟨.PERIOD, ".", 2, 9⟩, []⟩ =
      some (⟨[], eofNeg, []⟩, none)
    ∧ fmtErr "Expected <term>" eofNeg =
        "Syntax Error: " ++ "Expected <term>" ++ " at line -1, char -1" :=
  ⟨(C10_exhausted_generator_eof 6 ⟨[], ⟨.PERIOD, ".", 2, 9⟩, []⟩ "Expected <term>" rfl).1,
    (C10_exhausted_generator_eof 6 ⟨[], ⟨.PERIOD, ".", 2, 9⟩, []⟩ "Expected <term>" rfl).2⟩
